import Mathlib

/-!
Bug report statistics aggregator (`main.go`).

A shallow embedding of the aggregation core of `main.go`, in the sequential
model in which every decoded record is handled by one run of the worker task
body, followed by the properties of the aggregate state.

Conventions of the embedding.

* A Go `string` is the list of its bytes; every byte is held in a `Char`.
* A Go `int` is an `Int` (the counters are bounded by the number of records, so
  the 64-bit wrap is out of reach); a `time.Duration` is an `Int` number of
  nanoseconds, with the two sentinels `math.MaxInt64` and `math.MinInt64`.
* A Go `map[string]int` is an association list; two maps are the same Go map
  when every key has the same lookup result in both.
* A panic (`check` on a non-nil error, an index out of range) is `none`.
* A finite `float64` is a pair `m * 2 ^ e` of integers (`F64`); every operation
  rounds to 53 bits, to nearest and ties to even, on its own (no fused
  multiply-add). The library functions the source calls on durations,
  `strconv.FormatFloat(·, 'g', 16, 64)`, `time.ParseDuration`,
  `Duration.Seconds` and `Time.Sub`, are embedded after the Go library.
* `time.Parse(time.RFC1123Z, ·)` is a parameter `parse`, giving the instant of a
  timestamp in nanoseconds, or `none` when the library returns an error;
  `parseLayout` is an instance of it for the examples.
* The running average of lines 50-52 is a parameter `avgStep` taking the stored
  average, the count and the duration in nanoseconds; nothing is assumed about
  it, not even that it succeeds. `goAvgStep` is the computation of the source.
* The method `updateBugTimes` has two embeddings: `updateBugTimes64` on the
  `float64` seconds of any duration, which `setDurations` calls, and
  `updateBugTimes` on a whole number of seconds, which the statements about a
  sequence of calls use; `updateBugTimes64_whole` proves that they agree.
-/

namespace BugReport

set_option maxRecDepth 8000

/-- A Go string: the sequence of its bytes. -/
abbrev GoString := List Char

/-- A Go `map[string]int`, as the list of its entries. -/
abbrev GoMap := List (GoString × Int)

/-- The struct `report` (lines 17-23), without the embedded `xml.Name`; the field
`Type` is written `Type_`. -/
structure report where
  Status : GoString
  Created : GoString
  Resolved : GoString
  Type_ : GoString
deriving DecidableEq, Repr

/-- The struct `statistics` (lines 25-37); durations are in nanoseconds. -/
structure statistics where
  TypeNames : List GoString
  States : List GoString
  CategorizedTotal : GoMap
  Total : Int
  BugStates : GoMap
  BugTimeCount : Int
  BugMinTime : Int
  BugMaxTime : Int
  BugMedianTime : Int
  BugAverageTime : Int
  BugTimes : List Int
deriving DecidableEq, Repr

/-- The constant `math.MaxInt64`. -/
def MaxInt64 : Int := 9223372036854775807

/-- The constant `math.MinInt64`. -/
def MinInt64 : Int := -9223372036854775808

/-- The constant `time.Second`, in nanoseconds. -/
def Second : Int := 1000000000

/-- The largest whole number of seconds a `time.Duration` holds. -/
def maxSeconds : Int := 9223372036

/-- The string constant `"Bug"`. -/
def strBug : GoString := ['B', 'u', 'g']

/-- The string constant `"Closed"`. -/
def strClosed : GoString := ['C', 'l', 'o', 's', 'e', 'd']

/-- The string constant `"Resolved"`. -/
def strResolved : GoString := ['R', 'e', 's', 'o', 'l', 'v', 'e', 'd']

/-- Map lookup `m[k]` with the presence flag: `none` when the key is absent. -/
def mapGet : GoMap → GoString → Option Int
  | [], _ => none
  | (k', v) :: m, k => if k' = k then some v else mapGet m k

/-- The value read by `m[k]`: the zero value when the key is absent. -/
def mapVal (m : GoMap) (k : GoString) : Int := (mapGet m k).getD 0

/-- The sum of all values of a map. -/
def mapSum (m : GoMap) : Int := (m.map Prod.snd).sum

/-- The function `writeToMap` (lines 111-115): `(*totalMap)[statusName]++`. An
absent key is read as 0 and stored as 1. -/
def writeToMap : GoMap → GoString → GoMap
  | [], k => [(k, 1)]
  | (k', v) :: m, k => if k' = k then (k', v + 1) :: m else (k', v) :: writeToMap m k

/-- The value `statistics{}` of line 138: every field at its zero value. -/
def zeroStatistics : statistics :=
  { TypeNames := [], States := [], CategorizedTotal := [], Total := 0, BugStates := [],
    BugTimeCount := 0, BugMinTime := 0, BugMaxTime := 0, BugMedianTime := 0,
    BugAverageTime := 0, BugTimes := [] }

/-- The method `initializeStatistics` (lines 117-132). `BugTimeCount` and
`BugTimes` are not assigned. -/
def initializeStatistics (s : statistics) : statistics :=
  { s with
    TypeNames := [], States := [], CategorizedTotal := [], Total := 0, BugStates := [],
    BugMinTime := MaxInt64, BugMaxTime := MinInt64, BugMedianTime := 0, BugAverageTime := 0 }

/-- The state of `main` after lines 138-139. -/
def initial : statistics := initializeStatistics zeroStatistics


/-- A finite `float64`: the value `m * 2 ^ e`. The pair is not normalised;
every operation below depends on the value only. There is one zero: the two
zeros of `float64` are printed as `0` and `-0`, which `time.ParseDuration` both
reads as the duration 0. -/
structure F64 where
  m : Int
  e : Int
deriving DecidableEq, Repr

/-- The `float64` zero. -/
def F64.zero : F64 := ⟨0, 0⟩

/-- The quotient `p / q` rounded to the nearest natural number, a tie to the
even one. -/
def roundHalfEven (p q : Nat) : Nat :=
  if 2 * (p % q) < q then p / q
  else if q < 2 * (p % q) then p / q + 1
  else if (p / q) % 2 = 0 then p / q else p / q + 1

/-- The loop of `log2`, on a bounded number of rounds. -/
def log2Aux : Nat → Nat → Nat
  | 0, _ => 0
  | fuel + 1, n => if n < 2 then 0 else log2Aux fuel (n / 2) + 1

/-- The position of the highest bit of a positive natural number. -/
def log2 (n : Nat) : Nat := log2Aux n n

/-- The `float64` nearest to the positive rational `p / q`, with the sign
`neg`: the exponent `k` is chosen so that `p / q / 2 ^ k` lies between `2 ^ 52`
and `2 ^ 53`, and the quotient is rounded to a whole number, ties to even.
Subnormal numbers and overflow are out of the reach of the program and not
modelled. -/
def roundTo53 (neg : Bool) (p q : Nat) : F64 :=
  if p = 0 then F64.zero else
  let k0 : Int := (log2 p : Int) - (log2 q : Int) - 52
  let k : Int := if (if k0 ≤ 0 then p * 2 ^ (-k0).toNat else p)
      < (if k0 ≤ 0 then q else q * 2 ^ k0.toNat) * 2 ^ 52 then k0 - 1 else k0
  let M := roundHalfEven (if k ≤ 0 then p * 2 ^ (-k).toNat else p)
      (if k ≤ 0 then q else q * 2 ^ k.toNat)
  ⟨if neg then -(M : Int) else (M : Int), k⟩

/-- The `float64` nearest to `m * 2 ^ e`; a value of fewer than 54 bits is a
`float64` already. -/
def roundDyadic (m e : Int) : F64 :=
  if m.natAbs < 2 ^ 53 then ⟨m, e⟩
  else roundTo53 (decide (m < 0)) (if 0 ≤ e then m.natAbs * 2 ^ e.toNat else m.natAbs)
    (if 0 ≤ e then 1 else 2 ^ (-e).toNat)

/-- The conversion `float64(n)` of an integer. -/
def F64.ofInt (n : Int) : F64 := roundDyadic n 0

/-- The sum of two `float64`. -/
def F64.add (a b : F64) : F64 :=
  if b.m = 0 then a else if a.m = 0 then b else
  roundDyadic (a.m * 2 ^ (a.e - min a.e b.e).toNat + b.m * 2 ^ (b.e - min a.e b.e).toNat)
    (min a.e b.e)

/-- The product of two `float64`. -/
def F64.mul (a b : F64) : F64 := roundDyadic (a.m * b.m) (a.e + b.e)

/-- The quotient of two `float64`, the divisor not zero. -/
def F64.div (a b : F64) : F64 :=
  if a.m = 0 then F64.zero else
  roundTo53 (decide ((a.m < 0) ≠ (b.m < 0)))
    (a.m.natAbs * 2 ^ (a.e - b.e).toNat) (b.m.natAbs * 2 ^ (b.e - a.e).toNat)

/-- The comparison `a < b` of two `float64`. -/
def F64.lt (a b : F64) : Bool :=
  decide (a.m * 2 ^ (a.e - min a.e b.e).toNat < b.m * 2 ^ (b.e - min a.e b.e).toNat)

/-- The method `Duration.Seconds` of package time:
`float64(d / Second) + float64(d % Second) / 1e9`, with Go's truncated division
and remainder. -/
def Seconds (d : Int) : F64 :=
  F64.add (F64.ofInt (Int.tdiv d Second))
    (F64.div (F64.ofInt (Int.tmod d Second)) (F64.ofInt 1000000000))

/-- The byte of the last decimal digit of a natural number. -/
def digitChar (n : Nat) : Char := Char.ofNat (48 + n % 10)

/-- The last `w` decimal digits of a natural number, as bytes. -/
def padDigits : Nat → Nat → GoString
  | 0, _ => []
  | w + 1, n => padDigits w (n / 10) ++ [digitChar n]

/-- The loop of `decLen`, on a bounded number of rounds. -/
def decLenAux : Nat → Nat → Nat
  | 0, _ => 1
  | fuel + 1, n => if n < 10 then 1 else decLenAux fuel (n / 10) + 1

/-- The number of decimal digits of a natural number. -/
def decLen (n : Nat) : Nat := decLenAux n n

/-- The decimal digits of a natural number, as bytes. -/
def natDigits (n : Nat) : GoString := padDigits (decLen n) n

/-- The loop of `decExp` below one: the number of times `p` is multiplied by ten
before it reaches `q`. -/
def leadZerosAux : Nat → Nat → Nat → Nat
  | 0, _, _ => 0
  | fuel + 1, p, q => if q ≤ p then 0 else leadZerosAux fuel (p * 10) q + 1

/-- The decimal exponent `dp` of the positive rational `p / q`:
`10 ^ (dp - 1) ≤ p / q < 10 ^ dp`. -/
def decExp (p q : Nat) : Int :=
  if q ≤ p then (decLen (p / q) : Int) else 1 - ((leadZerosAux q (p * 10) q + 1 : Nat) : Int)

/-- The trailing zeros of a number of `nd` digits are removed, down to one
digit: the digits that are left, and their number. -/
def stripZeros : Nat → Nat → Nat × Nat
  | 0, n => (n, 0)
  | nd + 1, n =>
    if nd = 0 then (n, 1) else if n % 10 = 0 then stripZeros nd (n / 10) else (n, nd + 1)

/-- The format `%e` of `strconv`: the `nd` digits `M` with the point after the
first, and the exponent `dp - 1` in at least two digits. -/
def fmtE (neg : Bool) (M nd : Nat) (dp : Int) : GoString :=
  (if neg then ['-'] else []) ++ (padDigits nd M).take 1
    ++ (if 1 < nd then '.' :: (padDigits nd M).drop 1 else [])
    ++ ['e', if dp - 1 < 0 then '-' else '+']
    ++ (if (dp - 1).natAbs < 10 then '0' :: natDigits (dp - 1).natAbs
        else natDigits (dp - 1).natAbs)

/-- The format `%f` of `strconv` for the value `M * 10 ^ (dp - nd)`, with
`max (nd - dp) 0` digits after the point. -/
def fmtF (neg : Bool) (M nd : Nat) (dp : Int) : GoString :=
  (if neg then ['-'] else [])
    ++ natDigits (if dp ≤ 0 then 0 else if (nd : Int) ≤ dp then M * 10 ^ (dp - nd).toNat
        else M / 10 ^ ((nd : Int) - dp).toNat)
    ++ (if 0 < ((nd : Int) - dp).toNat
        then '.' :: padDigits ((nd : Int) - dp).toNat (M % 10 ^ ((nd : Int) - dp).toNat)
        else [])

/-- The positive rational `p / q` rounded to 16 significant decimal digits,
ties to even: the 16 digits as a number and the decimal exponent `dp`, the
value being `0.d₁d₂… * 10 ^ dp`. -/
def round16 (p q : Nat) : Nat × Int :=
  let dp := decExp p q
  let N := if dp ≤ 16 then roundHalfEven (p * 10 ^ (16 - dp).toNat) q
    else roundHalfEven p (q * 10 ^ (dp - 16).toNat)
  if N = 10 ^ 16 then (10 ^ 15, dp + 1) else (N, dp)

/-- The format `%g` of `strconv` with precision 16 on the 16 digits `N` and the
decimal exponent `dp`: the trailing zeros are dropped, and the exponent form is
taken when `dp - 1` is below -4 or not below the precision. -/
def fmtG (neg : Bool) (N : Nat) (dp : Int) : GoString :=
  let M := (stripZeros 16 N).1
  let nd := (stripZeros 16 N).2
  let eprec : Int := if nd < 16 ∧ dp ≤ (nd : Int) then nd else 16
  if dp - 1 < -4 ∨ eprec ≤ dp - 1 then fmtE neg M nd dp else fmtF neg M nd dp

/-- The call `strconv.FormatFloat(x, 'g', 16, 64)`. -/
def FormatFloat (x : F64) : GoString :=
  if x.m = 0 then ['0'] else
  fmtG (decide (x.m < 0))
    (round16 (if 0 ≤ x.e then x.m.natAbs * 2 ^ x.e.toNat else x.m.natAbs)
      (if 0 ≤ x.e then 1 else 2 ^ (-x.e).toNat)).1
    (round16 (if 0 ≤ x.e then x.m.natAbs * 2 ^ x.e.toNat else x.m.natAbs)
      (if 0 ≤ x.e then 1 else 2 ^ (-x.e).toNat)).2

/-- Whether a byte is a decimal digit. -/
def isDigit (c : Char) : Bool := decide ('0' ≤ c ∧ c ≤ '9')

/-- The function `leadingInt` of package time, from the value `x` read so far:
the leading digits, with an error on overflow, and the rest. -/
def leadingInt : Nat → GoString → Option (Nat × GoString)
  | x, [] => some (x, [])
  | x, c :: s =>
    if isDigit c then
      if x > 2 ^ 63 / 10 then none
      else if x * 10 + (c.toNat - 48) > 2 ^ 63 then none
      else leadingInt (x * 10 + (c.toNat - 48)) s
    else some (x, c :: s)

/-- The function `leadingFraction` of package time, from the value `x` read so
far: the leading digits, the number `k` of digits that count (the scale is
`10 ^ k`), and the rest; the digits after an overflow are skipped. -/
def leadingFraction : Nat → Nat → Bool → GoString → Nat × Nat × GoString
  | x, k, _, [] => (x, k, [])
  | x, k, overflow, c :: s =>
    if isDigit c then
      if overflow then leadingFraction x k true s
      else if x > (2 ^ 63 - 1) / 10 then leadingFraction x k true s
      else if x * 10 + (c.toNat - 48) > 2 ^ 63 then leadingFraction x k true s
      else leadingFraction (x * 10 + (c.toNat - 48)) (k + 1) false s
    else (x, k, c :: s)

/-- The table `unitMap` of package time, in nanoseconds. -/
def unitMap (u : GoString) : Option Nat :=
  if u = ['n', 's'] then some 1
  else if u = ['u', 's'] then some 1000
  else if u = [Char.ofNat 194, Char.ofNat 181, 's'] then some 1000
  else if u = [Char.ofNat 206, Char.ofNat 188, 's'] then some 1000
  else if u = ['m', 's'] then some 1000000
  else if u = ['s'] then some 1000000000
  else if u = ['m'] then some 60000000000
  else if u = ['h'] then some 3600000000000
  else none

/-- The conversion `uint64(x)` of a `float64` that is not negative: the
fraction is cut. -/
def F64.toUint (x : F64) : Nat :=
  if 0 ≤ x.e then x.m.toNat * 2 ^ x.e.toNat else x.m.toNat / 2 ^ (-x.e).toNat

/-- The `float64` `scale` of `leadingFraction` after `k` digits: 1 multiplied
`k` times by 10. -/
def scaleOf : Nat → F64
  | 0 => F64.ofInt 1
  | k + 1 => F64.mul (scaleOf k) (F64.ofInt 10)

/-- One round of the loop of `time.ParseDuration`: a number with an optional
fraction, then a unit; the value of the term in nanoseconds, and the rest. -/
def parseTerm (s : GoString) : Option (Nat × GoString) :=
  match s with
  | [] => none
  | c :: _ =>
    if !(c = '.' || isDigit c) then none else
    match leadingInt 0 s with
    | none => none
    | some (v, s1) =>
      let pre := decide (s.length ≠ s1.length)
      let fr : Nat × Nat × GoString × Bool :=
        match s1 with
        | '.' :: s2 =>
          ((leadingFraction 0 0 false s2).1, (leadingFraction 0 0 false s2).2.1,
            (leadingFraction 0 0 false s2).2.2,
            decide (s2.length ≠ (leadingFraction 0 0 false s2).2.2.length))
        | _ => (0, 0, s1, false)
      let f := fr.1
      let post := fr.2.2.2
      let u := fr.2.2.1.takeWhile (fun c => !(c = '.' || isDigit c))
      if !pre && !post then none else
      if u = [] then none else
      match unitMap u with
      | none => none
      | some unit =>
        if v > 2 ^ 63 / unit then none else
        let v1 := if 0 < f then v * unit + F64.toUint (F64.mul (F64.ofInt f)
          (F64.div (F64.ofInt unit) (scaleOf fr.2.1))) else v * unit
        if v1 > 2 ^ 63 then none
        else some (v1, fr.2.2.1.dropWhile (fun c => !(c = '.' || isDigit c)))

/-- The loop of `time.ParseDuration` from the sum `d` of the terms read so
far; a round reads at least one byte, so the length of the input bounds the
number of rounds. -/
def parseTerms : Nat → Nat → GoString → Option Nat
  | _, d, [] => some d
  | 0, _, _ :: _ => none
  | fuel + 1, d, c :: s =>
    match parseTerm (c :: s) with
    | none => none
    | some (v, rest) => if d + v > 2 ^ 63 then none else parseTerms fuel (d + v) rest

/-- The function `time.ParseDuration`; `none` is an error. -/
def ParseDuration (s : GoString) : Option Int :=
  let neg := decide (s.head? = some '-')
  let s1 := if s.head? = some '-' ∨ s.head? = some '+' then s.drop 1 else s
  if s1 = ['0'] then some 0
  else if s1 = [] then none
  else
    match parseTerms s1.length 0 s1 with
    | none => none
    | some d =>
      if neg then some (-(d : Int))
      else if d > 2 ^ 63 - 1 then none else some (d : Int)

/-- Lines 40-42: the duration is printed with 16 significant digits and read
back by `time.ParseDuration`; an error is a panic in `check`. -/
def durTimeOf64 (duration : F64) : Option Int :=
  ParseDuration (FormatFloat duration ++ ['s'])

/-- The method `Time.Sub` of package time on two instants in nanoseconds: the
difference, saturated at the two ends of `time.Duration`. -/
def Sub (t u : Int) : Int :=
  if MaxInt64 < t - u then MaxInt64 else if t - u < MinInt64 then MinInt64 else t - u

/-- Lines 50-52 of `updateBugTimes` as the source computes them, for the stored
average `avg`, the count and the duration `dur`, whose `float64` seconds are
the argument of the method. A count of -1 makes the divisor zero: the quotient
is then an infinity or not a number, which `time.ParseDuration` refuses. -/
def goAvgStep (avg count dur : Int) : Option Int :=
  if count + 1 = 0 then none
  else ParseDuration (FormatFloat (F64.div
    (F64.add (F64.mul (Seconds avg) (F64.ofInt count)) (Seconds dur))
    (F64.ofInt (count + 1))) ++ ['s'])

/-- The method `updateBugTimes` (lines 39-56) on the `float64` argument
`dur.Seconds()`, for a duration `dur` in nanoseconds. -/
def updateBugTimes64 (avgStep : Int → Int → Int → Option Int) (s : statistics) (dur : Int) :
    Option statistics :=
  match durTimeOf64 (Seconds dur) with
  | none => none
  | some durTime =>
    let s1 := if F64.lt (Seconds dur) (Seconds s.BugMinTime)
      then { s with BugMinTime := durTime } else s
    let s2 := if F64.lt (Seconds s1.BugMaxTime) (Seconds dur)
      then { s1 with BugMaxTime := durTime } else s1
    match avgStep s2.BugAverageTime s2.BugTimeCount dur with
    | none => none
    | some avg =>
      some { s2 with
        BugAverageTime := avg,
        BugTimeCount := s2.BugTimeCount + 1,
        BugTimes := s2.BugTimes ++ [durTime] }

/-- Lines 40-42 on a whole number of seconds: a whole number of at most
`maxSeconds` seconds in absolute value is printed digit for digit and read back
exactly (theorem `durTimeOf64_whole`); beyond that `ParseDuration` reports an
overflow or meets an exponent, and `check` panics. -/
def durTimeOf (duration : Int) : Option Int :=
  if -maxSeconds ≤ duration ∧ duration ≤ maxSeconds then some (duration * Second) else none

/-- The method `updateBugTimes` (lines 39-56) on a duration of `duration` whole
seconds: `updateBugTimes64` with the `float64` comparisons of lines 43 and 46
and the decimal round trip of lines 40-42 replaced by their exact results. The
two agree on a whole number of seconds against a stored minimum and maximum
that are whole numbers of seconds or the two sentinels (theorem
`updateBugTimes64_whole`). -/
def updateBugTimes (avgStep : Int → Int → Int → Option Int) (s : statistics) (duration : Int) :
    Option statistics :=
  match durTimeOf duration with
  | none => none
  | some durTime =>
    let s1 := if duration * Second < s.BugMinTime then { s with BugMinTime := durTime } else s
    let s2 := if duration * Second > s1.BugMaxTime then { s1 with BugMaxTime := durTime } else s1
    match avgStep s2.BugAverageTime s2.BugTimeCount (duration * Second) with
    | none => none
    | some avg =>
      some { s2 with
        BugAverageTime := avg,
        BugTimeCount := s2.BugTimeCount + 1,
        BugTimes := s2.BugTimes ++ [durTime] }

/-- Insertion into an ascending list, before the first larger element. -/
def orderedInsert (a : Int) : List Int → List Int
  | [] => [a]
  | b :: l => if a ≤ b then a :: b :: l else b :: orderedInsert a l

/-- Ascending sort. `sort.Slice` belongs to the Go library; the elements are
compared as a whole, so every sorting algorithm returns this same list. -/
def sortAscending : List Int → List Int
  | [] => []
  | a :: l => orderedInsert a (sortAscending l)

/-- The method `sortBugTimes` (lines 58-60). -/
def sortBugTimes (s : statistics) : statistics :=
  { s with BugTimes := sortAscending s.BugTimes }

/-- Slice indexing `xs[i]` with a Go `int` index: a panic when out of range. -/
def index (xs : List Int) (i : Int) : Option Int :=
  if 0 ≤ i then xs.get? i.toNat else none

/-- Lines 169-170 of `main`: sort the samples, then read the median at index
`BugTimeCount/2` (Go's truncated division). -/
def finalize (output : statistics) : Option statistics :=
  let output := sortBugTimes output
  match index output.BugTimes (Int.tdiv output.BugTimeCount 2) with
  | none => none
  | some m => some { output with BugMedianTime := m }

/-- The function `addData` (lines 90-109): both lists are scanned to the end. -/
def addData (res : report) (typeNames states : List GoString) :
    List GoString × List GoString :=
  let foundType := typeNames.foldl (fun found types => if types = res.Type_ then true else found) false
  let foundStatus := states.foldl (fun found status => if status = res.Status then true else found) false
  let typeNames := if !foundType then typeNames ++ [res.Type_] else typeNames
  let states := if !foundStatus then states ++ [res.Status] else states
  (typeNames, states)

/-- Lines 187-192 of `setDurations`, for one date: the byte at index 6 is read
(a panic on a string shorter than 7 bytes); when it is a space, `"0"` is put
between the first five bytes and the rest. -/
def normalizeDate (date : GoString) : Option GoString :=
  match date.get? 6 with
  | none => none
  | some c => if c = ' ' then some (date.take 5 ++ ['0'] ++ date.drop 5) else some date

/-- The function `setDurations` (lines 185-204) on instants in nanoseconds.
Returns the new state and the returned `float64` number of seconds. -/
def setDurations (parse : GoString → Option Int) (avgStep : Int → Int → Int → Option Int)
    (output : statistics) (createdDate resolvedDate : GoString) : Option (statistics × F64) :=
  match normalizeDate createdDate with
  | none => none
  | some createdDate =>
    match normalizeDate resolvedDate with
    | none => none
    | some resolvedDate =>
      match parse createdDate with
      | none => none
      | some createdTime =>
        match parse resolvedDate with
        | none => none
        | some resolvedTime =>
          let dur := Sub resolvedTime createdTime
          match updateBugTimes64 avgStep output dur with
          | none => none
          | some output => some (output, Seconds dur)

/-- The body of the closure `task` (lines 146-154) on one decoded record. -/
def task (parse : GoString → Option Int) (avgStep : Int → Int → Int → Option Int)
    (output : statistics) (res : report) : Option statistics :=
  let names := addData res output.TypeNames output.States
  let output := { output with TypeNames := names.1, States := names.2 }
  let afterBug : Option statistics :=
    if res.Type_ = strBug then
      let output := { output with BugStates := writeToMap output.BugStates res.Status }
      if res.Status = strClosed ∨ res.Status = strResolved then
        (setDurations parse avgStep output res.Created res.Resolved).map Prod.fst
      else some output
    else some output
  match afterBug with
  | none => none
  | some output =>
    let output := { output with CategorizedTotal := writeToMap output.CategorizedTotal res.Type_ }
    some { output with Total := output.Total + 1 }

/-- The worker task body run on each record of a sequence in turn. -/
def process (parse : GoString → Option Int) (avgStep : Int → Int → Int → Option Int) :
    statistics → List report → Option statistics
  | s, [] => some s
  | s, r :: rs =>
    match task parse avgStep s r with
    | none => none
    | some s1 => process parse avgStep s1 rs

/-- A sequence of `updateBugTimes` calls, one per duration. -/
def recordAll (avgStep : Int → Int → Int → Option Int) :
    statistics → List Int → Option statistics
  | s, [] => some s
  | s, d :: ds =>
    match updateBugTimes avgStep s d with
    | none => none
    | some s1 => recordAll avgStep s1 ds

/-- The function `addData` applied to each record of a sequence in turn. -/
def addAll : List GoString × List GoString → List report → List GoString × List GoString
  | names, [] => names
  | names, r :: rs => addAll (addData r names.1 names.2) rs

/-- The distinct values of a list, each kept at its first occurrence. -/
def firstSeen : List GoString → List GoString
  | [] => []
  | x :: xs => x :: (firstSeen xs).filter (fun y => decide (y ≠ x))

/-- One name added to a name list unless it is already there. -/
def addName (names : List GoString) (x : GoString) : List GoString :=
  if x ∈ names then names else names ++ [x]

/-- The relation between the running aggregates and the recorded samples: the
count is the number of samples, every sample is a representable number of
seconds, and the minimum and maximum are the two sentinels while there is no
sample and the least and greatest sample afterwards. -/
def AggInv (s : statistics) : Prop :=
  s.BugTimeCount = s.BugTimes.length
    ∧ (∀ t ∈ s.BugTimes, -maxSeconds * Second ≤ t ∧ t ≤ maxSeconds * Second)
    ∧ ((s.BugTimes = [] ∧ s.BugMinTime = MaxInt64 ∧ s.BugMaxTime = MinInt64)
        ∨ (s.BugMinTime ∈ s.BugTimes ∧ s.BugMaxTime ∈ s.BugTimes
            ∧ ∀ t ∈ s.BugTimes, s.BugMinTime ≤ t ∧ t ≤ s.BugMaxTime))

/-- The duration `setDurations` computes from the two timestamps of a record:
both are normalized and parsed, and the instants are subtracted; `none` when a
step panics. -/
def durationOf (parse : GoString → Option Int) (createdDate resolvedDate : GoString) :
    Option Int :=
  match normalizeDate createdDate, normalizeDate resolvedDate with
  | some c, some r =>
    match parse c, parse r with
    | some createdTime, some resolvedTime => some (Sub resolvedTime createdTime)
    | _, _ => none
  | _, _ => none

/-- The sample `setDurations` records for the two timestamps of a record, in
nanoseconds: the duration after the round trip of lines 40-42. -/
def sampleOf (parse : GoString → Option Int) (createdDate resolvedDate : GoString) :
    Option Int :=
  (durationOf parse createdDate resolvedDate).bind (fun dur => durTimeOf64 (Seconds dur))

/-- The records that feed the duration statistics: type `"Bug"` with status
`"Closed"` or `"Resolved"`. -/
def isTerminalBug (r : report) : Prop :=
  r.Type_ = strBug ∧ (r.Status = strClosed ∨ r.Status = strResolved)

instance (r : report) : Decidable (isTerminalBug r) := by
  unfold isTerminalBug; infer_instance

/-- The duration statistics of a state: samples, count, minimum, maximum and
average. -/
def durationStats (s : statistics) : List Int × Int × Int × Int × Int :=
  (s.BugTimes, s.BugTimeCount, s.BugMinTime, s.BugMaxTime, s.BugAverageTime)

/-- The value of a decimal digit byte. -/
def digit (c : Char) : Option Int :=
  if '0' ≤ c ∧ c ≤ '9' then some (Int.ofNat (c.toNat - 48)) else none

/-- The value of two decimal digit bytes. -/
def twoDigits (a b : Char) : Option Int :=
  match digit a, digit b with
  | some x, some y => some (10 * x + y)
  | _, _ => none

/-- The number of a month from its three-letter name. -/
def monthNumber (name : GoString) : Option Int :=
  match [['J', 'a', 'n'], ['F', 'e', 'b'], ['M', 'a', 'r'], ['A', 'p', 'r'], ['M', 'a', 'y'],
      ['J', 'u', 'n'], ['J', 'u', 'l'], ['A', 'u', 'g'], ['S', 'e', 'p'], ['O', 'c', 't'],
      ['N', 'o', 'v'], ['D', 'e', 'c']].indexOf? name with
  | some i => some (Int.ofNat i + 1)
  | none => none

/-- The number of days from 1 January 1970 to a date of the Gregorian calendar. -/
def daysFromCivil (year month day : Int) : Int :=
  let y := if month ≤ 2 then year - 1 else year
  let era := y / 400
  let yoe := y - era * 400
  let mp := (month + 9) % 12
  let doy := (153 * mp + 2) / 5 + day - 1
  let doe := yoe * 365 + yoe / 4 - yoe / 100 + doy
  era * 146097 + doe - 719468

/-- The fractional second that `time.Parse` accepts after the seconds although
the layout has none: a period or a comma, then digits, of which nine count.
Gives the nanoseconds and the rest of the input. -/
def parseFraction (value : GoString) : Int × GoString :=
  match value with
  | c :: d :: rest =>
    if (c = '.' ∨ c = ',') ∧ isDigit d = true then
      ((((d :: rest).takeWhile isDigit).take 9).foldl
          (fun x c => x * 10 + Int.ofNat (c.toNat - 48)) 0
        * 10 ^ (9 - (((d :: rest).takeWhile isDigit).take 9).length),
        (d :: rest).dropWhile isDigit)
    else (0, value)
  | _ => (0, value)

/-- An instance of the parser parameter, for running the model on examples: a
reader of timestamps written in the layout `Mon, 02 Jan 2006 15:04:05 -0700`,
with or without a fractional second, giving the instant in nanoseconds since
1 January 1970 UTC. -/
def parseLayout (value : GoString) : Option Int :=
  match value with
  | _ :: _ :: _ :: ',' :: ' ' :: d1 :: d2 :: ' ' :: m1 :: m2 :: m3 :: ' ' :: y1 :: y2 :: y3 :: y4
      :: ' ' :: h1 :: h2 :: ':' :: n1 :: n2 :: ':' :: s1 :: s2 :: rest =>
    match (parseFraction rest).2 with
    | [' ', sign, z1, z2, z3, z4] =>
      match twoDigits d1 d2, monthNumber [m1, m2, m3], twoDigits y1 y2, twoDigits y3 y4,
        twoDigits h1 h2, twoDigits n1 n2, twoDigits s1 s2, twoDigits z1 z2, twoDigits z3 z4 with
      | some day, some month, some yh, some yl, some hour, some minute, some sec,
          some zh, some zm =>
        if (sign = '+' ∨ sign = '-') ∧ 1 ≤ day ∧ day ≤ 31 ∧ hour < 24 ∧ minute < 60 ∧ sec < 60
            ∧ zm < 60 then
          some ((daysFromCivil (100 * yh + yl) month day * 86400
              + hour * 3600 + minute * 60 + sec
              - (if sign = '-' then -1 else 1) * (zh * 3600 + zm * 60)) * Second
            + (parseFraction rest).1)
        else none
      | _, _, _, _, _, _, _, _, _ => none
    | _ => none
  | _ => none


/-- A resolved bug, created at 15:04:05 and resolved at 16:04:05 of the same
day, with the day written as a single digit. -/
def resolvedBug : report :=
  { Status := strResolved,
    Created := "Mon, 2 Jan 2006 15:04:05 -0700".toList,
    Resolved := "Mon, 2 Jan 2006 16:04:05 -0700".toList,
    Type_ := strBug }

/-- The state after `resolvedBug` has been processed from the initial state. -/
def stateAfterResolvedBug : statistics :=
  { TypeNames := [strBug], States := [strResolved], CategorizedTotal := [(strBug, 1)],
    Total := 1, BugStates := [(strResolved, 1)], BugTimeCount := 1,
    BugMinTime := 3600000000000, BugMaxTime := 3600000000000, BugMedianTime := 0,
    BugAverageTime := 3600000000000, BugTimes := [3600000000000] }

/-- A bug that is still open. -/
def openBug : report :=
  { Status := "Open".toList,
    Created := "Mon, 2 Jan 2006 15:04:05 -0700".toList,
    Resolved := [],
    Type_ := strBug }

/-- A record of another type. -/
def openTask : report :=
  { Status := "Open".toList,
    Created := "Mon, 2 Jan 2006 15:04:05 -0700".toList,
    Resolved := [],
    Type_ := "Task".toList }

/-- The state after `resolvedBug`, `openTask` and `openBug` have been processed
in this order from the initial state. -/
def stateAfterThree : statistics :=
  { TypeNames := [strBug, "Task".toList], States := [strResolved, "Open".toList],
    CategorizedTotal := [(strBug, 2), ("Task".toList, 1)],
    Total := 3, BugStates := [(strResolved, 1), ("Open".toList, 1)], BugTimeCount := 1,
    BugMinTime := 3600000000000, BugMaxTime := 3600000000000, BugMedianTime := 0,
    BugAverageTime := 3600000000000, BugTimes := [3600000000000] }

/-- The state after the durations 40s, 10s, 30s and 20s have been recorded in
this order. -/
def stateAfterFour : statistics :=
  { initial with
    BugTimeCount := 4, BugMinTime := 10000000000, BugMaxTime := 40000000000,
    BugAverageTime := 24999999999,
    BugTimes := [40000000000, 10000000000, 30000000000, 20000000000] }

/-- The state after one duration of -3600s has been recorded. -/
def stateAfterNegative : statistics :=
  { initial with
    BugTimeCount := 1, BugMinTime := -3600000000000, BugMaxTime := -3600000000000,
    BugAverageTime := -3600000000000, BugTimes := [-3600000000000] }

/-- The state after one duration of 3600s has been recorded. -/
def stateAfterHour : statistics :=
  { initial with
    BugTimeCount := 1, BugMinTime := 3600000000000, BugMaxTime := 3600000000000,
    BugAverageTime := 3600000000000, BugTimes := [3600000000000] }

/-- A resolved bug whose resolution is `resolved`, created at 15:04:05 on
2 January 2006. -/
def bugResolvedAt (resolved : GoString) : report :=
  { Status := strResolved,
    Created := "Mon, 2 Jan 2006 15:04:05 -0700".toList,
    Resolved := resolved,
    Type_ := strBug }

/-- A resolved bug of one second. -/
def bugOneSecond : report := bugResolvedAt "Mon, 2 Jan 2006 15:04:06 -0700".toList

/-- A resolved bug of zero seconds. -/
def bugNoSecond : report := bugResolvedAt "Mon, 2 Jan 2006 15:04:05 -0700".toList

/-- A resolved bug of minus one second. -/
def bugMinusOneSecond : report := bugResolvedAt "Mon, 2 Jan 2006 15:04:04 -0700".toList

/-- The state after `bugOneSecond`, `bugMinusOneSecond`, `bugNoSecond` and
`bugNoSecond` have been processed in this order from the initial state. -/
def stateAfterCompletedOrder : statistics :=
  { TypeNames := [strBug], States := [strResolved], CategorizedTotal := [(strBug, 4)],
    Total := 4, BugStates := [(strResolved, 4)], BugTimeCount := 4,
    BugMinTime := -1000000000, BugMaxTime := 1000000000, BugMedianTime := 0,
    BugAverageTime := 0, BugTimes := [1000000000, -1000000000, 0, 0] }

/-- The state after `bugOneSecond`, `bugNoSecond` and `bugNoSecond` have been
processed in this order from the initial state. -/
def stateBeforePanic : statistics :=
  { TypeNames := [strBug], States := [strResolved], CategorizedTotal := [(strBug, 3)],
    Total := 3, BugStates := [(strResolved, 3)], BugTimeCount := 3,
    BugMinTime := 0, BugMaxTime := 1000000000, BugMedianTime := 0,
    BugAverageTime := 333333333, BugTimes := [1000000000, 0, 0] }


/-! ## Name lists -/

theorem foldl_found (x : GoString) (names : List GoString) (b : Bool) :
    names.foldl (fun found y => if y = x then true else found) b = (b || decide (x ∈ names)) := by
  induction names generalizing b with
  | nil => simp
  | cons y ys ih =>
    rw [List.foldl_cons, ih]
    by_cases h : y = x
    · subst h; simp
    · have h' : ¬ x = y := fun e => h e.symm
      simp [h, h']

theorem addData_eq (res : report) (tn st : List GoString) :
    addData res tn st = (addName tn res.Type_, addName st res.Status) := by
  unfold addData addName
  simp only [foldl_found, Bool.false_or]
  by_cases h1 : res.Type_ ∈ tn <;> by_cases h2 : res.Status ∈ st <;> simp [h1, h2]

theorem addAll_eq (rs : List report) (tn st : List GoString) :
    addAll (tn, st) rs
      = ((rs.map report.Type_).foldl addName tn, (rs.map report.Status).foldl addName st) := by
  induction rs generalizing tn st with
  | nil => rfl
  | cons r rs ih => simp only [addAll, addData_eq, ih, List.map_cons, List.foldl_cons]

theorem foldl_addName (xs acc : List GoString) :
    xs.foldl addName acc = acc ++ (firstSeen xs).filter (fun y => decide (y ∉ acc)) := by
  induction xs generalizing acc with
  | nil => simp [firstSeen]
  | cons x xs ih =>
    rw [List.foldl_cons, ih]
    by_cases h : x ∈ acc
    · simp only [addName, h, if_true, firstSeen, List.filter_cons, decide_not, decide_True,
        Bool.not_true, List.filter_filter]
      simp only [Bool.false_eq_true, if_false]
      congr 1
      apply List.filter_congr
      intro y _
      by_cases hy : y ∈ acc
      · simp [hy]
      · have : y ≠ x := fun e => hy (e ▸ h)
        simp [hy, this]
    · simp only [addName, h, if_false, firstSeen, List.filter_cons, decide_not, decide_False,
        Bool.not_false, if_true, List.filter_filter, List.append_assoc, List.singleton_append]
      congr 2
      apply List.filter_congr
      intro y _
      by_cases hy : y ∈ acc <;> by_cases hx : y = x <;> simp [hy, hx]

theorem firstSeen_mem (xs : List GoString) (y : GoString) : y ∈ firstSeen xs ↔ y ∈ xs := by
  induction xs with
  | nil => simp [firstSeen]
  | cons x xs ih =>
    simp only [firstSeen, List.mem_cons, List.mem_filter, ih]
    by_cases h : y = x <;> simp [h]

theorem firstSeen_nodup (xs : List GoString) : (firstSeen xs).Nodup := by
  induction xs with
  | nil => simp [firstSeen]
  | cons x xs ih =>
    simp only [firstSeen, List.nodup_cons]
    exact ⟨by simp [List.mem_filter], ih.filter _⟩

/-- Claim C5. From the empty name lists of the initialized statistics, `addData`
run over any sequence of records leaves in `TypeNames` the distinct `Type` values
and in `States` the distinct `Status` values of all the records, each list in
order of first occurrence and without duplicates. -/
theorem addData_name_lists (rs : List report) :
    addAll (initial.TypeNames, initial.States) rs
        = (firstSeen (rs.map report.Type_), firstSeen (rs.map report.Status))
      ∧ (addAll (initial.TypeNames, initial.States) rs).1.Nodup
      ∧ (addAll (initial.TypeNames, initial.States) rs).2.Nodup
      ∧ (∀ t, t ∈ (addAll (initial.TypeNames, initial.States) rs).1 ↔ ∃ r ∈ rs, r.Type_ = t)
      ∧ (∀ t, t ∈ (addAll (initial.TypeNames, initial.States) rs).2 ↔ ∃ r ∈ rs, r.Status = t) := by
  have h : addAll (initial.TypeNames, initial.States) rs
      = (firstSeen (rs.map report.Type_), firstSeen (rs.map report.Status)) := by
    have e1 : initial.TypeNames = [] := rfl
    have e2 : initial.States = [] := rfl
    rw [e1, e2, addAll_eq, foldl_addName, foldl_addName]
    simp
  rw [h]
  refine ⟨rfl, firstSeen_nodup _, firstSeen_nodup _, ?_, ?_⟩
  · intro t; simp [firstSeen_mem]
  · intro t; simp [firstSeen_mem]

/-! ## Day normalization -/

/-- Claim C6, counterexample. The timestamp with the single-digit day written
with a leading space has its digit, not a space, at index 6: the normalization
leaves it as it is and does not produce the leading-zero form. -/
theorem normalizeDate_leading_space_unchanged :
    normalizeDate "Mon,  2 Jan 2006 15:04:05 -0700".toList
        = some "Mon,  2 Jan 2006 15:04:05 -0700".toList
      ∧ normalizeDate "Mon,  2 Jan 2006 15:04:05 -0700".toList
        ≠ some "Mon, 02 Jan 2006 15:04:05 -0700".toList := by
  decide

/-- Claim C6, amended. A timestamp whose single-digit day is written without
padding (three bytes of weekday, a comma, a space, the digit, a space) has a
space at index 6; the normalization inserts `'0'` at index 5, which gives the
leading-zero form of the same timestamp, one byte longer and with every other
byte kept in order, so that the parser receives the same string for both forms.
The leading-zero form is left unchanged, and so is the form with a leading
space. -/
theorem normalizeDate_single_digit_day (w : GoString) (d : Char) (rest : GoString)
    (hw : w.length = 3) (hd : d ≠ ' ') :
    normalizeDate (w ++ [',', ' ', d, ' '] ++ rest) = some (w ++ [',', ' ', '0', d, ' '] ++ rest)
      ∧ (w ++ [',', ' ', '0', d, ' '] ++ rest).length = (w ++ [',', ' ', d, ' '] ++ rest).length + 1
      ∧ normalizeDate (w ++ [',', ' ', '0', d, ' '] ++ rest)
          = some (w ++ [',', ' ', '0', d, ' '] ++ rest)
      ∧ (∀ parse : GoString → Option Int,
          (normalizeDate (w ++ [',', ' ', d, ' '] ++ rest)).bind parse
            = (normalizeDate (w ++ [',', ' ', '0', d, ' '] ++ rest)).bind parse)
      ∧ normalizeDate (w ++ [',', ' ', ' ', d, ' '] ++ rest)
          = some (w ++ [',', ' ', ' ', d, ' '] ++ rest) := by
  match w, hw with
  | [a, b, c], _ =>
    have h1 : normalizeDate ([a, b, c] ++ [',', ' ', d, ' '] ++ rest)
        = some ([a, b, c] ++ [',', ' ', '0', d, ' '] ++ rest) := by
      simp [normalizeDate]
    have h2 : normalizeDate ([a, b, c] ++ [',', ' ', '0', d, ' '] ++ rest)
        = some ([a, b, c] ++ [',', ' ', '0', d, ' '] ++ rest) := by
      simp [normalizeDate, hd]
    have h3 : normalizeDate ([a, b, c] ++ [',', ' ', ' ', d, ' '] ++ rest)
        = some ([a, b, c] ++ [',', ' ', ' ', d, ' '] ++ rest) := by
      simp [normalizeDate, hd]
    refine ⟨h1, by simp, h2, ?_, h3⟩
    intro parse
    rw [h1, h2]

/-- Claim C6, amended, at the timestamp `Mon, 2 Jan 2006 15:04:05 -0700`. -/
theorem normalizeDate_single_digit_day_witness :
    normalizeDate "Mon, 2 Jan 2006 15:04:05 -0700".toList
        = some "Mon, 02 Jan 2006 15:04:05 -0700".toList
      ∧ "Mon, 02 Jan 2006 15:04:05 -0700".toList.length
        = "Mon, 2 Jan 2006 15:04:05 -0700".toList.length + 1
      ∧ normalizeDate "Mon, 02 Jan 2006 15:04:05 -0700".toList
        = some "Mon, 02 Jan 2006 15:04:05 -0700".toList
      ∧ (∀ parse : GoString → Option Int,
          (normalizeDate "Mon, 2 Jan 2006 15:04:05 -0700".toList).bind parse
            = (normalizeDate "Mon, 02 Jan 2006 15:04:05 -0700".toList).bind parse)
      ∧ normalizeDate "Mon,  2 Jan 2006 15:04:05 -0700".toList
        = some "Mon,  2 Jan 2006 15:04:05 -0700".toList :=
  normalizeDate_single_digit_day "Mon".toList '2' "Jan 2006 15:04:05 -0700".toList
    (by decide) (by decide)

/-! ## The decimal round trip of lines 40-42 on whole seconds -/

theorem digitChar_isDigit (n : Nat) : isDigit (digitChar n) = true := by
  unfold digitChar
  have h : n % 10 < 10 := Nat.mod_lt n (by decide)
  generalize n % 10 = r at h
  interval_cases r <;> decide

theorem digitChar_toNat (n : Nat) : (digitChar n).toNat - 48 = n % 10 := by
  unfold digitChar
  have h : n % 10 < 10 := Nat.mod_lt n (by decide)
  generalize n % 10 = r at h
  interval_cases r <;> decide

theorem two_pow_63 : (2 : Nat) ^ 63 = 9223372036854775808 := by norm_num

theorem leadingInt_padDigits (w : Nat) :
    ∀ (x n : Nat) (rest : GoString), n < 10 ^ w → x * 10 ^ w + n ≤ 2 ^ 63 →
      leadingInt x (padDigits w n ++ rest) = leadingInt (x * 10 ^ w + n) rest := by
  induction w with
  | zero =>
    intro x n rest hn _
    have : n = 0 := by simpa using hn
    subst this
    simp [padDigits]
  | succ w ih =>
    intro x n rest hn hb
    have hn' : n / 10 < 10 ^ w := by
      apply Nat.div_lt_of_lt_mul
      rw [pow_succ] at hn
      omega
    have hx : x * 10 ^ (w + 1) = x * 10 ^ w * 10 := by rw [pow_succ, mul_assoc]
    have hdm : n / 10 * 10 + n % 10 = n := by omega
    rw [hx, two_pow_63] at hb
    have hb' : x * 10 ^ w + n / 10 ≤ 2 ^ 63 := by rw [two_pow_63]; omega
    rw [padDigits, List.append_assoc, List.singleton_append, ih x (n / 10) _ hn' hb']
    rw [leadingInt]
    simp only [digitChar_isDigit, if_true, digitChar_toNat, two_pow_63]
    have h1 : ¬ (x * 10 ^ w + n / 10 > 9223372036854775808 / 10) := by omega
    have h2 : ¬ ((x * 10 ^ w + n / 10) * 10 + n % 10 > 9223372036854775808) := by omega
    rw [if_neg h1, if_neg h2]
    congr 1
    rw [hx]; omega

theorem decLenAux_spec : ∀ (f n : Nat), n ≤ f → 1 ≤ n →
    1 ≤ decLenAux f n ∧ 10 ^ (decLenAux f n - 1) ≤ n ∧ n < 10 ^ decLenAux f n := by
  intro f
  induction f with
  | zero => intro n h1 h2; omega
  | succ f ih =>
    intro n hf hn
    rw [decLenAux]
    by_cases h : n < 10
    · rw [if_pos h]
      refine ⟨le_refl _, ?_, ?_⟩ <;> simp <;> omega
    · rw [if_neg h]
      obtain ⟨a, b, c⟩ := ih (n / 10) (by omega) (by omega)
      refine ⟨by omega, ?_, ?_⟩
      · have e : decLenAux f (n / 10) + 1 - 1 = (decLenAux f (n / 10) - 1) + 1 := by omega
        rw [e, pow_succ]
        omega
      · rw [pow_succ]
        omega

theorem decLen_spec (n : Nat) (hn : 1 ≤ n) :
    1 ≤ decLen n ∧ 10 ^ (decLen n - 1) ≤ n ∧ n < 10 ^ decLen n :=
  decLenAux_spec n n (le_refl _) hn

theorem decLen_le {n k : Nat} (hn : 1 ≤ n) (h : n < 10 ^ k) : decLen n ≤ k := by
  obtain ⟨a, b, -⟩ := decLen_spec n hn
  by_contra hc
  have : k ≤ decLen n - 1 := by omega
  have := Nat.pow_le_pow_right (by decide : 1 ≤ 10) this
  omega

theorem stripZeros_spec : ∀ (w N : Nat),
    (stripZeros w N).2 ≤ w ∧ (stripZeros w N).1 * 10 ^ (w - (stripZeros w N).2) = N := by
  intro w
  induction w with
  | zero => intro N; simp [stripZeros]
  | succ w ih =>
    intro N
    rw [stripZeros]
    by_cases h0 : w = 0
    · simp [h0]
    · rw [if_neg h0]
      by_cases hz : N % 10 = 0
      · rw [if_pos hz]
        obtain ⟨a, b⟩ := ih (N / 10)
        refine ⟨by omega, ?_⟩
        have e : w + 1 - (stripZeros w (N / 10)).2 = (w - (stripZeros w (N / 10)).2) + 1 := by
          omega
        rw [e, pow_succ, ← mul_assoc, b]
        omega
      · rw [if_neg hz]
        simp

theorem stripZeros_zeros : ∀ (k w N : Nat), k < w → N ≠ 0 → 10 ^ k ∣ N →
    (stripZeros w N).2 ≤ w - k := by
  intro k
  induction k with
  | zero => intro w N _ _ _; exact (stripZeros_spec w N).1
  | succ k ih =>
    intro w N hk hN hd
    obtain ⟨w', rfl⟩ : ∃ w', w = w' + 1 := ⟨w - 1, by omega⟩
    have h10 : 10 ∣ N := Dvd.dvd.trans (Dvd.intro_left (10 ^ k) (by rw [pow_succ])) hd
    have hz : N % 10 = 0 := Nat.mod_eq_zero_of_dvd h10
    have hd' : 10 ^ k ∣ N / 10 := by
      obtain ⟨c, hc⟩ := hd
      refine ⟨c, ?_⟩
      rw [hc, pow_succ, mul_assoc, mul_comm 10 c, ← mul_assoc]
      exact Nat.mul_div_cancel _ (by decide)
    rw [stripZeros, if_neg (by omega), if_pos hz]
    have := ih w' (N / 10) (by omega) (by omega) hd'
    omega

theorem ofInt_small {d : Int} (h : d.natAbs < 2 ^ 53) : F64.ofInt d = ⟨d, 0⟩ := by
  unfold F64.ofInt roundDyadic
  rw [if_pos h]

theorem Seconds_whole {d : Int} (h : d.natAbs < 2 ^ 53) : Seconds (d * Second) = ⟨d, 0⟩ := by
  have hs : Second ≠ 0 := by decide
  unfold Seconds
  rw [Int.mul_tdiv_cancel d hs, Int.mul_tmod_left, ofInt_small h]
  have h0 : F64.ofInt 0 = ⟨0, 0⟩ := by decide
  rw [h0]
  simp [F64.div, F64.add, F64.zero]

theorem roundHalfEven_one (p : Nat) : roundHalfEven p 1 = p := by
  simp [roundHalfEven, Nat.mod_one]

theorem round16_nat {n : Nat} (h1 : 1 ≤ n) (h2 : n < 10 ^ 16) :
    round16 n 1 = (n * 10 ^ (16 - decLen n), (decLen n : Int)) := by
  obtain ⟨a, b, c⟩ := decLen_spec n h1
  have hL : decLen n ≤ 16 := decLen_le h1 h2
  have hdp : decExp n 1 = (decLen n : Int) := by
    unfold decExp
    rw [if_pos h1, Nat.div_one]
  have hto : (16 - (decLen n : Int)).toNat = 16 - decLen n := by omega
  have hlt : n * 10 ^ (16 - decLen n) < 10 ^ 16 := by
    calc n * 10 ^ (16 - decLen n) < 10 ^ decLen n * 10 ^ (16 - decLen n) :=
          Nat.mul_lt_mul_of_pos_right c (by positivity)
      _ = 10 ^ 16 := by rw [← pow_add]; congr 1; omega
  have hle : (decLen n : Int) ≤ 16 := by omega
  have hne : n * 10 ^ (16 - decLen n) ≠ 10 ^ 16 := by omega
  unfold round16
  simp only [hdp, hle, if_true, hto, roundHalfEven_one, hne, if_false]

theorem padDigits_ne_nil {w : Nat} (h : 1 ≤ w) (n : Nat) : padDigits w n ≠ [] := by
  obtain ⟨w', rfl⟩ : ∃ w', w = w' + 1 := ⟨w - 1, by omega⟩
  simp [padDigits]

theorem padDigits_isDigit : ∀ (w n : Nat) (c : Char), c ∈ padDigits w n → isDigit c = true := by
  intro w
  induction w with
  | zero => intro n c hc; simp [padDigits] at hc
  | succ w ih =>
    intro n c hc
    rw [padDigits, List.mem_append, List.mem_singleton] at hc
    rcases hc with hc | rfl
    · exact ih _ _ hc
    · exact digitChar_isDigit n

theorem natDigits_cons (n : Nat) :
    ∃ c tl, natDigits n = c :: tl ∧ isDigit c = true := by
  have hL : 1 ≤ decLen n := by
    by_cases h : 1 ≤ n
    · exact (decLen_spec n h).1
    · have : n = 0 := by omega
      subst this; decide
  have hne := padDigits_ne_nil hL n
  unfold natDigits
  cases hp : padDigits (decLen n) n with
  | nil => exact absurd hp hne
  | cons c tl =>
    refine ⟨c, tl, rfl, ?_⟩
    apply padDigits_isDigit (decLen n) n
    rw [hp]; simp

theorem fmtG_int {n : Nat} (neg : Bool) (h1 : 1 ≤ n) (h2 : n < 10 ^ 16) :
    fmtG neg (n * 10 ^ (16 - decLen n)) (decLen n : Int)
      = (if neg then ['-'] else []) ++ natDigits n := by
  obtain ⟨a, b, c⟩ := decLen_spec n h1
  have hL : decLen n ≤ 16 := decLen_le h1 h2
  have hN : n * 10 ^ (16 - decLen n) ≠ 0 := by positivity
  obtain ⟨s1, s2⟩ := stripZeros_spec 16 (n * 10 ^ (16 - decLen n))
  have s3 : (stripZeros 16 (n * 10 ^ (16 - decLen n))).2 ≤ decLen n := by
    by_cases hk : 16 - decLen n < 16
    · have := stripZeros_zeros (16 - decLen n) 16 _ hk hN (Dvd.intro_left _ rfl)
      omega
    · omega
  generalize hM : (stripZeros 16 (n * 10 ^ (16 - decLen n))).1 = M at s2
  generalize hnd : (stripZeros 16 (n * 10 ^ (16 - decLen n))).2 = nd at s1 s2 s3
  have hval : M * 10 ^ (decLen n - nd) = n := by
    have e : 16 - nd = (decLen n - nd) + (16 - decLen n) := by omega
    rw [e, pow_add, ← mul_assoc] at s2
    exact Nat.eq_of_mul_eq_mul_right (by positivity) s2
  unfold fmtG
  simp only [hM, hnd]
  have hcond : ¬ ((decLen n : Int) - 1 < -4
      ∨ (if nd < 16 ∧ (decLen n : Int) ≤ (nd : Int) then (nd : Int) else 16)
          ≤ (decLen n : Int) - 1) := by
    intro h
    rcases h with h | h
    · omega
    · split at h <;> omega
  rw [if_neg hcond]
  unfold fmtF
  have hprec : ((nd : Int) - (decLen n : Int)).toNat = 0 := by omega
  have hto : ((decLen n : Int) - (nd : Int)).toNat = decLen n - nd := by omega
  have c1 : ¬ ((decLen n : Int) ≤ 0) := by omega
  have c2 : (nd : Int) ≤ (decLen n : Int) := by omega
  simp only [hprec, c1, c2, if_false, if_true, hto, hval, lt_irrefl, List.append_nil]

theorem FormatFloat_int {d : Int} (hd : d ≠ 0) (h : d.natAbs < 10 ^ 16) :
    FormatFloat ⟨d, 0⟩ = (if d < 0 then ['-'] else []) ++ natDigits d.natAbs := by
  have h1 : 1 ≤ d.natAbs := by omega
  unfold FormatFloat
  simp only [hd, if_false, le_refl, if_true, Int.toNat_zero, pow_zero, mul_one]
  rw [round16_nat h1 h, fmtG_int _ h1 h]
  by_cases hneg : d < 0 <;> simp [hneg]

theorem natDigits_lt (n : Nat) : n < 10 ^ decLen n := by
  by_cases h : 1 ≤ n
  · exact (decLen_spec n h).2.2
  · have : n = 0 := by omega
    subst this; positivity

theorem leadingInt_natDigits {n : Nat} (hn : n ≤ 2 ^ 63) :
    leadingInt 0 (natDigits n ++ ['s']) = some (n, ['s']) := by
  unfold natDigits
  rw [leadingInt_padDigits (decLen n) 0 n ['s'] (natDigits_lt n) (by simpa using hn)]
  simp only [zero_mul, zero_add]
  rw [leadingInt]
  have : isDigit 's' = false := by decide
  simp [this]

theorem parseTerm_natDigits {n : Nat} (hn : n ≤ 9223372036) :
    parseTerm (natDigits n ++ ['s']) = some (n * 1000000000, []) := by
  obtain ⟨c, tl, hc, hcd⟩ := natDigits_cons n
  have hl : leadingInt 0 (natDigits n ++ ['s']) = some (n, ['s']) :=
    leadingInt_natDigits (by rw [two_pow_63]; omega)
  have hu : unitMap ['s'] = some 1000000000 := by decide
  have hs : isDigit 's' = false := by decide
  rw [hc] at hl ⊢
  rw [List.cons_append] at hl ⊢
  unfold parseTerm
  simp only [hcd, Bool.or_true, Bool.not_true, Bool.false_eq_true, if_false, hl]
  simp [hs, hu, two_pow_63]
  omega

theorem ParseDuration_natDigits (neg : Bool) {n : Nat} (hn : n ≤ 9223372036) :
    ParseDuration ((if neg then ['-'] else []) ++ natDigits n ++ ['s'])
      = some (if neg then -((n : Int) * 1000000000) else (n : Int) * 1000000000) := by
  obtain ⟨c, tl, hc, hcd⟩ := natDigits_cons n
  have hp := parseTerm_natDigits hn
  have hcm : c ≠ '-' := by intro h; subst h; exact absurd hcd (by decide)
  have hcp : c ≠ '+' := by intro h; subst h; exact absurd hcd (by decide)
  rw [hc, List.cons_append] at hp
  rw [hc]
  cases neg with
  | true =>
    unfold ParseDuration
    simp only [if_true, List.cons_append, List.nil_append, List.head?_cons, true_or,
      List.drop_succ_cons, List.drop_zero, decide_True, List.length_cons]
    rw [if_neg (by simp), if_neg (by simp)]
    simp only [parseTerms, hp, two_pow_63]
    rw [if_neg (by omega)]
    simp
  | false =>
    unfold ParseDuration
    simp only [Bool.false_eq_true, if_false, List.nil_append, List.cons_append,
      List.head?_cons, Option.some.injEq, hcm, hcp, or_self, decide_False, List.length_cons]
    rw [if_neg (by simp), if_neg (by simp)]
    simp only [parseTerms, hp, two_pow_63]
    rw [if_neg (by omega)]
    simp only []
    rw [if_neg (by omega)]
    simp

theorem durTimeOf64_whole {d : Int} (h : -maxSeconds ≤ d ∧ d ≤ maxSeconds) :
    durTimeOf64 (Seconds (d * Second)) = some (d * Second) := by
  have hb : d.natAbs ≤ 9223372036 := by
    simp only [maxSeconds] at h; omega
  rw [Seconds_whole (by rw [show (2 : Nat) ^ 53 = 9007199254740992 by norm_num]; omega)]
  unfold durTimeOf64
  by_cases hd : d = 0
  · subst hd; decide
  · rw [FormatFloat_int hd (by rw [show (10 : Nat) ^ 16 = 10000000000000000 by norm_num]; omega)]
    have := ParseDuration_natDigits (decide (d < 0)) hb
    by_cases hneg : d < 0
    · simp only [hneg, decide_True, if_true] at this ⊢
      rw [this]
      simp only [Second]
      congr 1
      omega
    · simp only [hneg, decide_False, Bool.false_eq_true, if_false] at this ⊢
      rw [this]
      simp only [Second]
      congr 1
      omega

theorem lt_whole (a b : Int) : F64.lt ⟨a, 0⟩ ⟨b, 0⟩ = decide (a < b) := by
  simp [F64.lt]

theorem Seconds_MaxInt64 : Seconds MaxInt64 = ⟨4835703278458517, -19⟩ := by decide

theorem Seconds_MinInt64 : Seconds MinInt64 = ⟨-4835703278458517, -19⟩ := by decide

theorem lt_Seconds_whole {d t : Int} (hd : -maxSeconds ≤ d ∧ d ≤ maxSeconds)
    (ht : t = MaxInt64 ∨ t = MinInt64
      ∨ ∃ a, (-maxSeconds ≤ a ∧ a ≤ maxSeconds) ∧ t = a * Second) :
    F64.lt (Seconds (d * Second)) (Seconds t) = decide (d * Second < t)
      ∧ F64.lt (Seconds t) (Seconds (d * Second)) = decide (t < d * Second) := by
  have h53 : (2 : Nat) ^ 53 = 9007199254740992 := by norm_num
  have hd' : d.natAbs < 2 ^ 53 := by
    rw [h53]; simp only [maxSeconds] at hd; omega
  rw [Seconds_whole hd']
  simp only [maxSeconds] at hd
  rcases ht with rfl | rfl | ⟨a, ha, rfl⟩
  · rw [Seconds_MaxInt64]
    have e19 : Int.toNat 19 = 19 := rfl
    simp only [F64.lt, MaxInt64, Second]
    norm_num [e19]
    constructor <;> omega
  · rw [Seconds_MinInt64]
    have e19 : Int.toNat 19 = 19 := rfl
    simp only [F64.lt, MinInt64, Second]
    norm_num [e19]
    constructor <;> omega
  · have ha' : a.natAbs < 2 ^ 53 := by
      rw [h53]; simp only [maxSeconds] at ha; omega
    rw [Seconds_whole ha', lt_whole, lt_whole]
    simp only [Second]
    constructor
    · congr 1; apply propext; constructor <;> intro h <;> omega
    · congr 1; apply propext; constructor <;> intro h <;> omega

/-- On a whole number of seconds, against a stored minimum and maximum that are
whole numbers of seconds or the two sentinels, the `float64` model of
`updateBugTimes` and the model on whole seconds are the same function. -/
theorem updateBugTimes64_whole (avgStep : Int → Int → Int → Option Int) (s : statistics)
    (d : Int) (hd : -maxSeconds ≤ d ∧ d ≤ maxSeconds)
    (hmin : s.BugMinTime = MaxInt64
      ∨ ∃ a, (-maxSeconds ≤ a ∧ a ≤ maxSeconds) ∧ s.BugMinTime = a * Second)
    (hmax : s.BugMaxTime = MinInt64
      ∨ ∃ a, (-maxSeconds ≤ a ∧ a ≤ maxSeconds) ∧ s.BugMaxTime = a * Second) :
    updateBugTimes64 avgStep s (d * Second) = updateBugTimes avgStep s d := by
  have c1 := (lt_Seconds_whole hd (t := s.BugMinTime)
    (hmin.elim Or.inl (fun h => Or.inr (Or.inr h)))).1
  have c2 := (lt_Seconds_whole hd (t := s.BugMaxTime)
    (hmax.elim (fun h => Or.inr (Or.inl h)) (fun h => Or.inr (Or.inr h)))).2
  unfold updateBugTimes64 updateBugTimes durTimeOf
  rw [durTimeOf64_whole hd, if_pos hd]
  by_cases h1 : d * Second < s.BugMinTime <;> by_cases h2 : s.BugMaxTime < d * Second <;>
    simp [c1, c2, h1, h2]


/-! ## Running aggregates -/

theorem updateBugTimes_some {avgStep : Int → Int → Int → Option Int} {s s' : statistics} {d : Int}
    (h : updateBugTimes avgStep s d = some s') :
    (-maxSeconds ≤ d ∧ d ≤ maxSeconds)
      ∧ s'.BugTimes = s.BugTimes ++ [d * Second]
      ∧ s'.BugTimeCount = s.BugTimeCount + 1
      ∧ s'.BugMinTime = (if d * Second < s.BugMinTime then d * Second else s.BugMinTime)
      ∧ s'.BugMaxTime = (if d * Second > s.BugMaxTime then d * Second else s.BugMaxTime)
      ∧ avgStep s.BugAverageTime s.BugTimeCount (d * Second) = some s'.BugAverageTime
      ∧ s'.TypeNames = s.TypeNames ∧ s'.States = s.States
      ∧ s'.CategorizedTotal = s.CategorizedTotal ∧ s'.Total = s.Total
      ∧ s'.BugStates = s.BugStates ∧ s'.BugMedianTime = s.BugMedianTime := by
  unfold updateBugTimes durTimeOf at h
  by_cases hr : -maxSeconds ≤ d ∧ d ≤ maxSeconds
  · simp only [hr, and_self, if_true] at h
    cases ha : avgStep s.BugAverageTime s.BugTimeCount (d * Second) with
    | none =>
      by_cases h1 : d * Second < s.BugMinTime <;> by_cases h2 : d * Second > s.BugMaxTime <;>
        simp [h1, h2, ha] at h
    | some avg =>
      by_cases h1 : d * Second < s.BugMinTime <;> by_cases h2 : d * Second > s.BugMaxTime <;>
        simp [h1, h2, ha] at h <;> subst h <;> simp [h1, h2, hr]
  · simp [hr] at h

theorem AggInv_initial : AggInv initial := by
  refine ⟨rfl, ?_, Or.inl ⟨rfl, rfl, rfl⟩⟩
  intro t ht
  have : initial.BugTimes = [] := rfl
  rw [this] at ht
  cases ht

theorem AggInv_step {s s' : statistics} {d : Int} (hs : AggInv s)
    (hr : -maxSeconds ≤ d ∧ d ≤ maxSeconds)
    (hT : s'.BugTimes = s.BugTimes ++ [d * Second])
    (hC : s'.BugTimeCount = s.BugTimeCount + 1)
    (hMin : s'.BugMinTime = (if d * Second < s.BugMinTime then d * Second else s.BugMinTime))
    (hMax : s'.BugMaxTime = (if d * Second > s.BugMaxTime then d * Second else s.BugMaxTime)) :
    AggInv s' := by
  obtain ⟨hc, hb, hm⟩ := hs
  have hd1 : -maxSeconds * Second ≤ d * Second := by
    simp only [maxSeconds, Second] at *; omega
  have hd2 : d * Second ≤ maxSeconds * Second := by
    simp only [maxSeconds, Second] at *; omega
  refine ⟨?_, ?_, Or.inr ?_⟩
  · rw [hC, hT, hc]; simp
  · intro t ht
    rw [hT, List.mem_append, List.mem_singleton] at ht
    rcases ht with ht | rfl
    · exact hb t ht
    · exact ⟨hd1, hd2⟩
  · rcases hm with ⟨he, hmin, hmax⟩ | ⟨hmin, hmax, hall⟩
    · have h1 : d * Second < s.BugMinTime := by
        rw [hmin]; simp only [maxSeconds, Second, MaxInt64] at *; omega
      have h2 : d * Second > s.BugMaxTime := by
        rw [hmax]; simp only [maxSeconds, Second, MinInt64] at *; omega
      rw [if_pos h1] at hMin
      rw [if_pos h2] at hMax
      rw [hMin, hMax, hT, he]
      simp
    · have hmm : s.BugMinTime ≤ s.BugMaxTime := (hall _ hmin).2
      rw [hT]
      refine ⟨?_, ?_, ?_⟩
      · rw [hMin]; split
        · simp
        · exact List.mem_append_left _ hmin
      · rw [hMax]; split
        · simp
        · exact List.mem_append_left _ hmax
      · intro t ht
        rw [List.mem_append, List.mem_singleton] at ht
        rw [hMin, hMax]
        rcases ht with ht | rfl
        · have := hall t ht
          constructor
          · split <;> omega
          · split <;> omega
        · constructor
          · split <;> omega
          · split <;> omega

theorem AggInv_update {avgStep : Int → Int → Int → Option Int} {s s' : statistics} {d : Int}
    (hs : AggInv s) (h : updateBugTimes avgStep s d = some s') : AggInv s' := by
  obtain ⟨hr, hT, hC, hMin, hMax, -⟩ := updateBugTimes_some h
  exact AggInv_step hs hr hT hC hMin hMax

theorem recordAll_some {avgStep : Int → Int → Int → Option Int} (ds : List Int)
    {s s' : statistics} (hs : AggInv s) (h : recordAll avgStep s ds = some s') :
    AggInv s' ∧ s'.BugTimes = s.BugTimes ++ ds.map (fun d => d * Second) := by
  induction ds generalizing s with
  | nil =>
    simp only [recordAll, Option.some.injEq] at h
    subst h
    exact ⟨hs, by simp⟩
  | cons d ds ih =>
    simp only [recordAll] at h
    cases hu : updateBugTimes avgStep s d with
    | none => simp [hu] at h
    | some s1 =>
      simp only [hu] at h
      obtain ⟨hi, hT⟩ := ih (AggInv_update hs hu) h
      refine ⟨hi, ?_⟩
      rw [hT, (updateBugTimes_some hu).2.1]
      simp

theorem updateBugTimes64_some {avgStep : Int → Int → Int → Option Int} {s s' : statistics}
    {dur : Int} (h : updateBugTimes64 avgStep s dur = some s') :
    ∃ t, durTimeOf64 (Seconds dur) = some t
      ∧ s'.BugTimes = s.BugTimes ++ [t]
      ∧ s'.BugTimeCount = s.BugTimeCount + 1
      ∧ s'.BugMinTime
          = (if F64.lt (Seconds dur) (Seconds s.BugMinTime) = true then t else s.BugMinTime)
      ∧ s'.BugMaxTime
          = (if F64.lt (Seconds s.BugMaxTime) (Seconds dur) = true then t else s.BugMaxTime)
      ∧ avgStep s.BugAverageTime s.BugTimeCount dur = some s'.BugAverageTime
      ∧ s'.TypeNames = s.TypeNames ∧ s'.States = s.States
      ∧ s'.CategorizedTotal = s.CategorizedTotal ∧ s'.Total = s.Total
      ∧ s'.BugStates = s.BugStates ∧ s'.BugMedianTime = s.BugMedianTime := by
  unfold updateBugTimes64 at h
  cases ht : durTimeOf64 (Seconds dur) with
  | none => simp [ht] at h
  | some t =>
    simp only [ht] at h
    refine ⟨t, rfl, ?_⟩
    cases ha : avgStep s.BugAverageTime s.BugTimeCount dur with
    | none =>
      by_cases h1 : F64.lt (Seconds dur) (Seconds s.BugMinTime) = true <;>
        by_cases h2 : F64.lt (Seconds s.BugMaxTime) (Seconds dur) = true <;>
        simp [h1, h2, ha] at h
    | some avg =>
      by_cases h1 : F64.lt (Seconds dur) (Seconds s.BugMinTime) = true <;>
        by_cases h2 : F64.lt (Seconds s.BugMaxTime) (Seconds dur) = true <;>
        simp [h1, h2, ha] at h <;> subst h <;> simp [h1, h2]

theorem setDurations_eq (parse : GoString → Option Int) (avgStep : Int → Int → Int → Option Int)
    (s : statistics) (c r : GoString) :
    setDurations parse avgStep s c r
      = (durationOf parse c r).bind
          (fun dur => (updateBugTimes64 avgStep s dur).map (fun s1 => (s1, Seconds dur))) := by
  unfold setDurations durationOf
  cases normalizeDate c <;> cases normalizeDate r <;> try rfl
  rename_i c1 r1
  simp only []
  cases parse c1 <;> cases parse r1 <;> try rfl
  rename_i tc tr
  simp only [Option.some_bind]
  cases updateBugTimes64 avgStep s (Sub tr tc) <;> rfl

theorem task_some {parse : GoString → Option Int} {avgStep : Int → Int → Int → Option Int}
    {s s' : statistics} {r : report} (h : task parse avgStep s r = some s') :
    s'.TypeNames = addName s.TypeNames r.Type_
      ∧ s'.States = addName s.States r.Status
      ∧ s'.CategorizedTotal = writeToMap s.CategorizedTotal r.Type_
      ∧ s'.Total = s.Total + 1
      ∧ s'.BugStates = (if r.Type_ = strBug then writeToMap s.BugStates r.Status else s.BugStates)
      ∧ s'.BugMedianTime = s.BugMedianTime
      ∧ (isTerminalBug r →
          ∃ d, sampleOf parse r.Created r.Resolved = some d
            ∧ s'.BugTimes = s.BugTimes ++ [d]
            ∧ s'.BugTimeCount = s.BugTimeCount + 1)
      ∧ (¬ isTerminalBug r → durationStats s' = durationStats s) := by
  unfold task at h
  simp only [addData_eq, setDurations_eq] at h
  by_cases hb : r.Type_ = strBug
  · by_cases ht : r.Status = strClosed ∨ r.Status = strResolved
    · simp only [hb, ht, if_true] at h
      cases hd : durationOf parse r.Created r.Resolved with
      | none => simp [hd] at h
      | some d =>
        simp only [hd, Option.some_bind] at h
        cases hu : updateBugTimes64 avgStep
            { s with TypeNames := addName s.TypeNames strBug,
                     States := addName s.States r.Status,
                     BugStates := writeToMap s.BugStates r.Status } d with
        | none => simp [hu] at h
        | some s1 =>
          simp only [hu, Option.map_some', Option.some.injEq] at h
          obtain ⟨t, ht1, h1, h2, -, -, -, h6, h7, h8, h9, h10, h11⟩ := updateBugTimes64_some hu
          subst h
          simp only [h6, h7, h8, h9, h10, h11, hb, if_true, true_and]
          refine ⟨?_, ?_⟩
          · intro _
            refine ⟨t, ?_, h1, h2⟩
            unfold sampleOf
            rw [hd, Option.some_bind, ht1]
          · intro hn
            exact absurd ⟨hb, ht⟩ hn
    · simp only [hb, ht, if_true, if_false, Option.some.injEq] at h
      subst h
      simp only [hb, if_true, true_and]
      refine ⟨?_, ?_⟩
      · intro hn; exact absurd hn.2 ht
      · intro _; rfl
  · simp only [hb, if_false, Option.some.injEq] at h
    subst h
    simp only [hb, if_false, true_and]
    refine ⟨?_, ?_⟩
    · intro hn; exact absurd hn.1 hb
    · intro _; rfl

/-! ## Maps -/

theorem mapGet_writeToMap_self (m : GoMap) (k : GoString) :
    mapGet (writeToMap m k) k = some (mapVal m k + 1) := by
  induction m with
  | nil => simp [writeToMap, mapGet, mapVal]
  | cons e m ih =>
    obtain ⟨k', v⟩ := e
    by_cases h : k' = k
    · simp [writeToMap, mapGet, mapVal, h]
    · simp only [writeToMap, mapGet, mapVal, h, if_false] at ih ⊢
      exact ih

theorem mapGet_writeToMap_ne (m : GoMap) {k k1 : GoString} (hne : k1 ≠ k) :
    mapGet (writeToMap m k) k1 = mapGet m k1 := by
  induction m with
  | nil =>
    have : ¬ k = k1 := fun e => hne e.symm
    simp [writeToMap, mapGet, this]
  | cons e m ih =>
    obtain ⟨k', v⟩ := e
    by_cases h : k' = k
    · have : ¬ k' = k1 := fun e => hne (e.symm.trans h)
      simp [writeToMap, mapGet, h, this, hne.symm]
    · by_cases h1 : k' = k1
      · subst h1
        simp [writeToMap, mapGet, h]
      · simp [writeToMap, mapGet, h, h1, ih]

theorem mapVal_writeToMap_self (m : GoMap) (k : GoString) :
    mapVal (writeToMap m k) k = mapVal m k + 1 := by
  simp [mapVal, mapGet_writeToMap_self]

theorem mapSum_writeToMap (m : GoMap) (k : GoString) :
    mapSum (writeToMap m k) = mapSum m + 1 := by
  induction m with
  | nil => simp [writeToMap, mapSum]
  | cons e m ih =>
    obtain ⟨k', v⟩ := e
    by_cases h : k' = k
    · simp only [writeToMap, h, if_true, mapSum, List.map_cons, List.sum_cons]
      omega
    · simp only [writeToMap, h, if_false, mapSum, List.map_cons, List.sum_cons] at ih ⊢
      omega

theorem keys_writeToMap (m : GoMap) (k : GoString) :
    (writeToMap m k).map Prod.fst = addName (m.map Prod.fst) k := by
  induction m with
  | nil => simp [writeToMap, addName]
  | cons e m ih =>
    obtain ⟨k', v⟩ := e
    by_cases h : k' = k
    · simp [writeToMap, addName, h]
    · have h' : ¬ k = k' := fun e => h e.symm
      simp only [writeToMap, h, if_false, List.map_cons, ih, addName, List.mem_cons, h', false_or]
      split <;> simp

theorem addName_nodup {names : List GoString} (h : names.Nodup) (x : GoString) :
    (addName names x).Nodup := by
  unfold addName
  split
  · exact h
  · rename_i hx
    rw [List.nodup_append]
    refine ⟨h, by simp, ?_⟩
    intro a ha hb
    simp only [List.mem_singleton] at hb
    exact hx (hb ▸ ha)

/-! ## One record -/

/-- Claim C9. One successful run of the worker task body on a record adds one
to `CategorizedTotal[Type]` (no other key changes) and one to `Total`. The
duration statistics change if and only if the record is a `"Bug"` with status
`"Closed"` or `"Resolved"`, and then exactly one sample, the one computed from
the two timestamps of the record, is appended and counted. `BugStates` changes if and only if the type
is `"Bug"`, and then `BugStates[Status]` grows by one and no other key
changes. -/
theorem task_frame (parse : GoString → Option Int) (avgStep : Int → Int → Int → Option Int)
    (s s' : statistics) (r : report) (h : task parse avgStep s r = some s') :
    mapVal s'.CategorizedTotal r.Type_ = mapVal s.CategorizedTotal r.Type_ + 1
      ∧ (∀ k, k ≠ r.Type_ → mapGet s'.CategorizedTotal k = mapGet s.CategorizedTotal k)
      ∧ s'.Total = s.Total + 1
      ∧ (durationStats s' ≠ durationStats s ↔ isTerminalBug r)
      ∧ (isTerminalBug r →
          ∃ d, sampleOf parse r.Created r.Resolved = some d
            ∧ s'.BugTimes = s.BugTimes ++ [d]
            ∧ s'.BugTimeCount = s.BugTimeCount + 1)
      ∧ (¬ isTerminalBug r → durationStats s' = durationStats s)
      ∧ ((∃ k, mapGet s'.BugStates k ≠ mapGet s.BugStates k) ↔ r.Type_ = strBug)
      ∧ (r.Type_ = strBug →
          mapVal s'.BugStates r.Status = mapVal s.BugStates r.Status + 1
            ∧ ∀ k, k ≠ r.Status → mapGet s'.BugStates k = mapGet s.BugStates k)
      ∧ (r.Type_ ≠ strBug → s'.BugStates = s.BugStates) := by
  obtain ⟨-, -, hC, hT, hB, -, hD, hN⟩ := task_some h
  refine ⟨?_, ?_, hT, ?_, ?_, hN, ?_, ?_, ?_⟩
  · rw [hC, mapVal_writeToMap_self]
  · intro k hk
    rw [hC, mapGet_writeToMap_ne _ hk]
  · constructor
    · intro hne
      by_contra hn
      exact hne (hN hn)
    · intro ht hEq
      obtain ⟨d, -, hTimes, -⟩ := hD ht
      have : s'.BugTimes = s.BugTimes := congrArg Prod.fst hEq
      rw [hTimes] at this
      have hl := congrArg List.length this
      simp at hl
  · intro ht
    exact hD ht
  · constructor
    · rintro ⟨k, hk⟩
      by_contra hb
      rw [hB, if_neg hb] at hk
      exact hk rfl
    · intro hb
      refine ⟨r.Status, ?_⟩
      rw [hB, if_pos hb, mapGet_writeToMap_self]
      unfold mapVal
      cases mapGet s.BugStates r.Status with
      | none => simp
      | some v => simp
  · intro hb
    rw [hB, if_pos hb]
    exact ⟨mapVal_writeToMap_self _ _, fun k hk => mapGet_writeToMap_ne _ hk⟩
  · intro hb
    rw [hB, if_neg hb]

/-- Claim C9 on a resolved bug processed from the initial state. -/
theorem task_frame_witness :
    task parseLayout goAvgStep initial resolvedBug = some stateAfterResolvedBug
      ∧ (mapVal stateAfterResolvedBug.CategorizedTotal resolvedBug.Type_
            = mapVal initial.CategorizedTotal resolvedBug.Type_ + 1
        ∧ (∀ k, k ≠ resolvedBug.Type_ →
            mapGet stateAfterResolvedBug.CategorizedTotal k = mapGet initial.CategorizedTotal k)
        ∧ stateAfterResolvedBug.Total = initial.Total + 1
        ∧ (durationStats stateAfterResolvedBug ≠ durationStats initial ↔ isTerminalBug resolvedBug)
        ∧ (isTerminalBug resolvedBug →
            ∃ d, sampleOf parseLayout resolvedBug.Created resolvedBug.Resolved = some d
              ∧ stateAfterResolvedBug.BugTimes = initial.BugTimes ++ [d]
              ∧ stateAfterResolvedBug.BugTimeCount = initial.BugTimeCount + 1)
        ∧ (¬ isTerminalBug resolvedBug →
            durationStats stateAfterResolvedBug = durationStats initial)
        ∧ ((∃ k, mapGet stateAfterResolvedBug.BugStates k ≠ mapGet initial.BugStates k)
            ↔ resolvedBug.Type_ = strBug)
        ∧ (resolvedBug.Type_ = strBug →
            mapVal stateAfterResolvedBug.BugStates resolvedBug.Status
                = mapVal initial.BugStates resolvedBug.Status + 1
              ∧ ∀ k, k ≠ resolvedBug.Status →
                  mapGet stateAfterResolvedBug.BugStates k = mapGet initial.BugStates k)
        ∧ (resolvedBug.Type_ ≠ strBug → stateAfterResolvedBug.BugStates = initial.BugStates)) :=
  ⟨by decide,
    task_frame parseLayout goAvgStep initial stateAfterResolvedBug resolvedBug (by decide)⟩

/-! ## A sequence of records -/

theorem process_some {parse : GoString → Option Int} {avgStep : Int → Int → Int → Option Int}
    (rs : List report) {s s' : statistics} (h : process parse avgStep s rs = some s') :
    s'.Total = s.Total + rs.length
      ∧ s'.CategorizedTotal = (rs.map report.Type_).foldl writeToMap s.CategorizedTotal
      ∧ s'.BugStates
          = ((rs.filter (fun r => decide (r.Type_ = strBug))).map report.Status).foldl
              writeToMap s.BugStates
      ∧ s'.BugMedianTime = s.BugMedianTime
      ∧ s'.BugTimeCount
          = s.BugTimeCount + ((rs.filter (fun r => decide (isTerminalBug r))).length : Int)
      ∧ s'.BugTimes.length
          = s.BugTimes.length + (rs.filter (fun r => decide (isTerminalBug r))).length := by
  induction rs generalizing s with
  | nil =>
    simp only [process, Option.some.injEq] at h
    subst h
    simp
  | cons r rs ih =>
    simp only [process] at h
    cases ht : task parse avgStep s r with
    | none => simp [ht] at h
    | some s1 =>
      simp only [ht] at h
      obtain ⟨i1, i2, i3, i4, i5, i6⟩ := ih h
      obtain ⟨-, -, hC, hT, hB, hM, hD, hN⟩ := task_some ht
      refine ⟨?_, ?_, ?_, ?_, ?_, ?_⟩
      · rw [i1, hT, List.length_cons]; push_cast; ring
      · rw [i2, hC]; rfl
      · rw [i3, hB]
        by_cases hb : r.Type_ = strBug
        · simp [hb, List.filter_cons]
        · simp [hb, List.filter_cons]
      · rw [i4, hM]
      · rw [i5]
        by_cases hterm : isTerminalBug r
        · obtain ⟨d, -, -, hCount⟩ := hD hterm
          rw [hCount]
          simp only [List.filter_cons, hterm, decide_True, if_true, List.length_cons]
          push_cast; ring
        · have hEq := hN hterm
          simp only [durationStats, Prod.mk.injEq] at hEq
          rw [hEq.2.1]
          simp [List.filter_cons, hterm]
      · rw [i6]
        by_cases hterm : isTerminalBug r
        · obtain ⟨d, -, hTimes, -⟩ := hD hterm
          rw [hTimes]
          simp only [List.filter_cons, hterm, decide_True, if_true, List.length_cons,
            List.length_append, List.length_nil]
          omega
        · have hEq := hN hterm
          simp only [durationStats, Prod.mk.injEq] at hEq
          rw [hEq.1]
          simp [List.filter_cons, hterm]

theorem mapSum_foldl_writeToMap (ks : List GoString) (m : GoMap) :
    mapSum (ks.foldl writeToMap m) = mapSum m + ks.length := by
  induction ks generalizing m with
  | nil => simp
  | cons k ks ih =>
    rw [List.foldl_cons, ih, mapSum_writeToMap, List.length_cons]
    push_cast; ring

theorem keys_foldl_writeToMap (ks : List GoString) (m : GoMap) :
    (ks.foldl writeToMap m).map Prod.fst = ks.foldl addName (m.map Prod.fst) := by
  induction ks generalizing m with
  | nil => rfl
  | cons k ks ih => rw [List.foldl_cons, ih, keys_writeToMap, List.foldl_cons]

/-- Claim C1. From the initialized statistics, after any sequence of records
has been processed without a failure, `Total` is the number of records, the
values of `CategorizedTotal` add up to `Total`, and the values of `BugStates`
add up to the number of records of type `"Bug"`; no key occurs twice in either
map. -/
theorem counter_consistency (parse : GoString → Option Int)
    (avgStep : Int → Int → Int → Option Int) (rs : List report) (s : statistics)
    (h : process parse avgStep initial rs = some s) :
    s.Total = rs.length
      ∧ mapSum s.CategorizedTotal = s.Total
      ∧ mapSum s.BugStates = (rs.filter (fun r => decide (r.Type_ = strBug))).length
      ∧ (s.CategorizedTotal.map Prod.fst).Nodup
      ∧ (s.BugStates.map Prod.fst).Nodup := by
  obtain ⟨hT, hC, hB, -⟩ := process_some rs h
  have e0 : initial.Total = 0 := rfl
  have e1 : initial.CategorizedTotal = [] := rfl
  have e2 : initial.BugStates = [] := rfl
  rw [e0] at hT
  rw [e1] at hC
  rw [e2] at hB
  refine ⟨by rw [hT]; simp, ?_, ?_, ?_, ?_⟩
  · rw [hC, mapSum_foldl_writeToMap, hT]; simp [mapSum]
  · rw [hB, mapSum_foldl_writeToMap]; simp [mapSum]
  · rw [hC, keys_foldl_writeToMap, foldl_addName]
    simpa using firstSeen_nodup _
  · rw [hB, keys_foldl_writeToMap, foldl_addName]
    simpa using firstSeen_nodup _

/-- Claim C1 on a resolved bug, a task and an open bug. -/
theorem counter_consistency_witness :
    process parseLayout goAvgStep initial [resolvedBug, openTask, openBug]
        = some stateAfterThree
      ∧ (stateAfterThree.Total = [resolvedBug, openTask, openBug].length
        ∧ mapSum stateAfterThree.CategorizedTotal = stateAfterThree.Total
        ∧ mapSum stateAfterThree.BugStates
            = ([resolvedBug, openTask, openBug].filter
                (fun r => decide (r.Type_ = strBug))).length
        ∧ (stateAfterThree.CategorizedTotal.map Prod.fst).Nodup
        ∧ (stateAfterThree.BugStates.map Prod.fst).Nodup) :=
  ⟨by decide,
    counter_consistency parseLayout goAvgStep [resolvedBug, openTask, openBug]
      stateAfterThree (by decide)⟩

/-! ## Sorting and the median -/

theorem orderedInsert_eq (a : Int) (l : List Int) :
    orderedInsert a l = List.orderedInsert (fun x y => x ≤ y) a l := by
  induction l with
  | nil => rfl
  | cons b l ih => simp only [orderedInsert, List.orderedInsert, ih]

theorem sortAscending_eq (l : List Int) :
    sortAscending l = List.insertionSort (fun x y => x ≤ y) l := by
  induction l with
  | nil => rfl
  | cons a l ih => simp only [sortAscending, List.insertionSort, ih, orderedInsert_eq]

theorem sortAscending_perm (l : List Int) : (sortAscending l).Perm l := by
  rw [sortAscending_eq]; exact List.perm_insertionSort _ l

theorem sortAscending_sorted (l : List Int) : (sortAscending l).Sorted (fun x y => x ≤ y) := by
  rw [sortAscending_eq]; exact List.sorted_insertionSort _ l

theorem sortAscending_congr {l1 l2 : List Int} (h : l1.Perm l2) :
    sortAscending l1 = sortAscending l2 :=
  List.eq_of_perm_of_sorted
    ((sortAscending_perm l1).trans (h.trans (sortAscending_perm l2).symm))
    (sortAscending_sorted l1) (sortAscending_sorted l2)

theorem sortAscending_length (l : List Int) : (sortAscending l).length = l.length :=
  (sortAscending_perm l).length_eq

theorem finalize_of_count {s : statistics} (hc : s.BugTimeCount = s.BugTimes.length) :
    (s.BugTimes ≠ [] →
        ∃ m, (sortAscending s.BugTimes).get? (s.BugTimes.length / 2) = some m
          ∧ finalize s = some { sortBugTimes s with BugMedianTime := m })
      ∧ (s.BugTimes = [] → finalize s = none) := by
  have hdiv : Int.tdiv s.BugTimeCount 2 = ((s.BugTimes.length / 2 : Nat) : Int) := by
    rw [hc, Int.tdiv_eq_ediv (Int.ofNat_nonneg _) (by decide)]
    norm_cast
  constructor
  · intro hne
    have hpos : 0 < s.BugTimes.length := List.length_pos.mpr hne
    have hlt : s.BugTimes.length / 2 < (sortAscending s.BugTimes).length := by
      rw [sortAscending_length]; omega
    refine ⟨(sortAscending s.BugTimes).get ⟨_, hlt⟩, List.get?_eq_get hlt, ?_⟩
    have hnn : (0 : Int) ≤ (s.BugTimes.length : Int) / 2 := by omega
    unfold finalize index
    simp only [sortBugTimes, hdiv, Int.toNat_ofNat, List.get?_eq_get hlt]
    simp [hnn]
  · intro he
    unfold finalize index
    simp [sortBugTimes, hdiv, he, sortAscending]

/-- Claim C3. After a non-empty sequence of durations has been recorded from the
initialized statistics, `finalize` succeeds; `BugTimes` is then ascending and a
permutation of the recorded samples, and `BugMedianTime` is its element at
index `BugTimeCount / 2`, the upper-middle element for an even count. For the
four durations 10s, 20s, 30s, 40s recorded in any order the median is 30s. -/
theorem median_after_finalize (avgStep : Int → Int → Int → Option Int) (ds : List Int)
    (s : statistics) (hne : ds ≠ []) (h : recordAll avgStep initial ds = some s) :
    ∃ f, finalize s = some f
      ∧ f.BugTimes.Sorted (fun x y => x ≤ y)
      ∧ f.BugTimes.Perm (ds.map (fun d => d * Second))
      ∧ f.BugTimeCount = ds.length
      ∧ index f.BugTimes (Int.tdiv f.BugTimeCount 2) = some f.BugMedianTime
      ∧ f.BugTimes.get? (ds.length / 2) = some f.BugMedianTime
      ∧ (ds.Perm [10, 20, 30, 40] → f.BugMedianTime = 30 * Second) := by
  obtain ⟨⟨hc, -, -⟩, hT0⟩ := recordAll_some ds AggInv_initial h
  have hT : s.BugTimes = ds.map (fun d => d * Second) := by
    rw [hT0]; rfl
  have hne' : s.BugTimes ≠ [] := by
    rw [hT]; intro he; exact hne (List.map_eq_nil_iff.mp he)
  obtain ⟨m, hm, hf⟩ := (finalize_of_count hc).1 hne'
  have hlen : s.BugTimes.length = ds.length := by rw [hT]; simp
  have hcount : s.BugTimeCount = ds.length := by rw [hc, hlen]
  rw [hlen] at hm
  refine ⟨_, hf, sortAscending_sorted _, ?_, hcount, ?_, hm, ?_⟩
  · show (sortAscending s.BugTimes).Perm _
    rw [← hT]; exact sortAscending_perm _
  · show index (sortAscending s.BugTimes) (Int.tdiv s.BugTimeCount 2) = some m
    have hdiv : Int.tdiv s.BugTimeCount 2 = ((ds.length / 2 : Nat) : Int) := by
      rw [hcount, Int.tdiv_eq_ediv (Int.ofNat_nonneg _) (by decide)]
      norm_cast
    unfold index
    rw [hdiv, if_pos (Int.ofNat_zero_le _), Int.toNat_ofNat]
    exact hm
  · intro hp
    show m = 30 * Second
    have hperm : s.BugTimes.Perm ([10, 20, 30, 40].map (fun d => d * Second)) := by
      rw [hT]; exact hp.map _
    have hsort : sortAscending s.BugTimes
        = sortAscending ([10, 20, 30, 40].map (fun d => d * Second)) :=
      sortAscending_congr hperm
    have h4 : ds.length = 4 := hp.length_eq
    rw [hsort, h4] at hm
    have : (sortAscending ([10, 20, 30, 40].map (fun d => d * Second))).get? (4 / 2)
        = some (30 * Second) := by decide
    rw [this] at hm
    exact (Option.some.inj hm).symm

/-- Claim C3 on the durations 40s, 10s, 30s, 20s, recorded in this order. -/
theorem median_after_finalize_witness :
    ([40, 10, 30, 20] : List Int) ≠ []
      ∧ recordAll goAvgStep initial [40, 10, 30, 20] = some stateAfterFour
      ∧ ∃ f, finalize stateAfterFour = some f
        ∧ f.BugTimes.Sorted (fun x y => x ≤ y)
        ∧ f.BugTimes.Perm ([40, 10, 30, 20].map (fun d => d * Second))
        ∧ f.BugTimeCount = ([40, 10, 30, 20] : List Int).length
        ∧ index f.BugTimes (Int.tdiv f.BugTimeCount 2) = some f.BugMedianTime
        ∧ f.BugTimes.get? (([40, 10, 30, 20] : List Int).length / 2) = some f.BugMedianTime
        ∧ (([40, 10, 30, 20] : List Int).Perm [10, 20, 30, 40] →
            f.BugMedianTime = 30 * Second) :=
  ⟨by decide, by decide,
    median_after_finalize goAvgStep [40, 10, 30, 20] stateAfterFour (by decide) (by decide)⟩

theorem finalize_eq {s : statistics} {m : Int}
    (h : index (sortAscending s.BugTimes) (Int.tdiv s.BugTimeCount 2) = some m) :
    finalize s = some { s with BugTimes := sortAscending s.BugTimes, BugMedianTime := m } := by
  unfold finalize
  simp only [sortBugTimes, h]

theorem index_mem {xs : List Int} {i m : Int} (h : index xs i = some m) : m ∈ xs := by
  unfold index at h
  split at h
  · exact List.get?_mem h
  · cases h

/-- Claim C10. After any sequence of records has been processed from the
initialized statistics, `finalize` yields a median if and only if at least one
duration has been recorded. `BugTimeCount` is the number of closed or resolved
bugs among the records; when it is at least 1 the index `BugTimeCount / 2` lies
within `BugTimes`, and `finalize` returns the state with the samples sorted and
with `BugMedianTime` set to the sample at that index of the sorted samples.
When it is 0 (no record at all, or no closed or resolved bug) the lookup is out
of bounds and `finalize` fails, so that the zero value of `BugMedianTime` is
never given as a median. -/
theorem no_median_without_samples (parse : GoString → Option Int)
    (avgStep : Int → Int → Int → Option Int) (rs : List report) (s : statistics)
    (h : process parse avgStep initial rs = some s) :
    s.BugTimeCount = ((rs.filter (fun r => decide (isTerminalBug r))).length : Int)
      ∧ s.BugTimeCount = s.BugTimes.length
      ∧ ((∃ f, finalize s = some f) ↔ 1 ≤ s.BugTimeCount)
      ∧ (1 ≤ s.BugTimeCount →
          0 ≤ Int.tdiv s.BugTimeCount 2 ∧ Int.tdiv s.BugTimeCount 2 < s.BugTimes.length
            ∧ ∃ m, index (sortAscending s.BugTimes) (Int.tdiv s.BugTimeCount 2) = some m
              ∧ m ∈ s.BugTimes
              ∧ finalize s
                  = some { s with BugTimes := sortAscending s.BugTimes, BugMedianTime := m })
      ∧ (s.BugTimeCount = 0 →
          index (sortBugTimes s).BugTimes (Int.tdiv s.BugTimeCount 2) = none
            ∧ finalize s = none)
      ∧ ((∀ r ∈ rs, ¬ isTerminalBug r) → finalize s = none) := by
  obtain ⟨-, -, -, -, hcnt, hlen⟩ := process_some rs h
  have e0 : initial.BugTimeCount = 0 := rfl
  have e1 : initial.BugTimes = [] := rfl
  rw [e0, zero_add] at hcnt
  rw [e1, List.length_nil, zero_add] at hlen
  have hc : s.BugTimeCount = s.BugTimes.length := by rw [hcnt, hlen]
  obtain ⟨hpos, hzero⟩ := finalize_of_count hc
  have hnil : s.BugTimeCount = 0 → s.BugTimes = [] := by
    intro h0
    rw [hc] at h0
    exact List.length_eq_zero.mp (by exact_mod_cast h0)
  have hne : 1 ≤ s.BugTimeCount → s.BugTimes ≠ [] := by
    intro h1 he
    rw [hc, he] at h1
    simp at h1
  refine ⟨hcnt, hc, ?_, ?_, ?_, ?_⟩
  · constructor
    · rintro ⟨f, hf⟩
      by_contra hlt
      have h0 : s.BugTimeCount = 0 := by rw [hc] at hlt ⊢; omega
      rw [hzero (hnil h0)] at hf
      cases hf
    · intro h1
      obtain ⟨m, -, hf⟩ := hpos (hne h1)
      exact ⟨_, hf⟩
  · intro h1
    have hdiv : Int.tdiv s.BugTimeCount 2 = ((s.BugTimes.length / 2 : Nat) : Int) := by
      rw [hc, Int.tdiv_eq_ediv (Int.ofNat_zero_le _) (by decide)]
      norm_cast
    obtain ⟨m, hm, -⟩ := hpos (hne h1)
    have hidx : index (sortAscending s.BugTimes) (Int.tdiv s.BugTimeCount 2) = some m := by
      unfold index
      rw [hdiv, if_pos (Int.ofNat_zero_le _), Int.toNat_ofNat]
      exact hm
    refine ⟨?_, ?_, m, hidx, ?_, finalize_eq hidx⟩
    · rw [hdiv]; exact Int.ofNat_zero_le _
    · rw [hc] at h1 ⊢
      rw [Int.tdiv_eq_ediv (Int.ofNat_zero_le _) (by decide)]
      omega
    · exact (sortAscending_perm s.BugTimes).mem_iff.mp (index_mem hidx)
  · intro h0
    refine ⟨?_, hzero (hnil h0)⟩
    simp [sortBugTimes, hnil h0, sortAscending, index]
  · intro hall
    apply hzero
    apply hnil
    rw [hcnt]
    have : rs.filter (fun r => decide (isTerminalBug r)) = [] := by
      rw [List.filter_eq_nil_iff]
      intro r hr
      simpa using hall r hr
    rw [this]; rfl

/-- Claim C10 on a resolved bug, a task and an open bug, where the one sample
of 3600s is the median, and on no record at all, where `finalize` fails. -/
theorem no_median_without_samples_witness :
    (process parseLayout goAvgStep initial [resolvedBug, openTask, openBug]
        = some stateAfterThree
      ∧ (stateAfterThree.BugTimeCount
            = ((([resolvedBug, openTask, openBug] : List report).filter
                (fun r => decide (isTerminalBug r))).length : Int)
        ∧ stateAfterThree.BugTimeCount = stateAfterThree.BugTimes.length
        ∧ ((∃ f, finalize stateAfterThree = some f) ↔ 1 ≤ stateAfterThree.BugTimeCount)
        ∧ (1 ≤ stateAfterThree.BugTimeCount →
            0 ≤ Int.tdiv stateAfterThree.BugTimeCount 2
              ∧ Int.tdiv stateAfterThree.BugTimeCount 2 < stateAfterThree.BugTimes.length
              ∧ ∃ m, index (sortAscending stateAfterThree.BugTimes)
                    (Int.tdiv stateAfterThree.BugTimeCount 2) = some m
                ∧ m ∈ stateAfterThree.BugTimes
                ∧ finalize stateAfterThree
                    = some { stateAfterThree with
                        BugTimes := sortAscending stateAfterThree.BugTimes,
                        BugMedianTime := m })
        ∧ (stateAfterThree.BugTimeCount = 0 →
            index (sortBugTimes stateAfterThree).BugTimes
                (Int.tdiv stateAfterThree.BugTimeCount 2) = none
              ∧ finalize stateAfterThree = none)
        ∧ ((∀ r ∈ ([resolvedBug, openTask, openBug] : List report), ¬ isTerminalBug r) →
            finalize stateAfterThree = none)))
      ∧ finalize stateAfterThree
          = some { stateAfterThree with BugMedianTime := 3600000000000 }
      ∧ (process parseLayout goAvgStep initial [] = some initial
        ∧ (initial.BugTimeCount
              = ((([] : List report).filter (fun r => decide (isTerminalBug r))).length : Int)
          ∧ initial.BugTimeCount = initial.BugTimes.length
          ∧ ((∃ f, finalize initial = some f) ↔ 1 ≤ initial.BugTimeCount)
          ∧ (1 ≤ initial.BugTimeCount →
              0 ≤ Int.tdiv initial.BugTimeCount 2
                ∧ Int.tdiv initial.BugTimeCount 2 < initial.BugTimes.length
                ∧ ∃ m, index (sortAscending initial.BugTimes)
                      (Int.tdiv initial.BugTimeCount 2) = some m
                  ∧ m ∈ initial.BugTimes
                  ∧ finalize initial
                      = some { initial with
                          BugTimes := sortAscending initial.BugTimes, BugMedianTime := m })
          ∧ (initial.BugTimeCount = 0 →
              index (sortBugTimes initial).BugTimes (Int.tdiv initial.BugTimeCount 2) = none
                ∧ finalize initial = none)
          ∧ ((∀ r ∈ ([] : List report), ¬ isTerminalBug r) → finalize initial = none))) :=
  ⟨⟨by decide,
      no_median_without_samples parseLayout goAvgStep [resolvedBug, openTask, openBug]
        stateAfterThree (by decide)⟩,
    by decide,
    ⟨by decide, no_median_without_samples parseLayout goAvgStep [] initial (by decide)⟩⟩

/-! ## Durations -/

theorem Sub_whole {t u d : Int} (h : t - u = d * Second)
    (hr : -maxSeconds ≤ d ∧ d ≤ maxSeconds) : Sub t u = d * Second := by
  unfold Sub
  simp only [maxSeconds, Second, MaxInt64, MinInt64] at *
  rw [if_neg (by omega), if_neg (by omega), h]

/-- Claim C7, counterexample. The timestamps of the first pair are valid in the
fixed format and their instants are 10000000000 seconds apart, more than a
`time.Duration` holds: `setDurations` does not return the difference and
records no sample. The second pair is accepted by the parser and its instants
are 94694400.123456789 seconds apart: the sample recorded is one nanosecond
more than the difference. -/
theorem setDurations_not_the_difference :
    (normalizeDate "Thu, 01 Jan 1970 00:00:00 +0000".toList).bind parseLayout = some 0
      ∧ (normalizeDate "Sat, 20 Nov 2286 17:46:40 +0000".toList).bind parseLayout
          = some 10000000000000000000
      ∧ setDurations parseLayout goAvgStep initial
          "Thu, 01 Jan 1970 00:00:00 +0000".toList "Sat, 20 Nov 2286 17:46:40 +0000".toList
          = none
      ∧ durationOf parseLayout "Mon, 2 Jan 2006 15:04:05 -0700".toList
          "Fri, 2 Jan 2009 15:04:05.123456789 -0700".toList = some 94694400123456789
      ∧ (setDurations parseLayout goAvgStep initial
          "Mon, 2 Jan 2006 15:04:05 -0700".toList
          "Fri, 2 Jan 2009 15:04:05.123456789 -0700".toList).map (fun p => p.1.BugTimes)
          = some [94694400123456790] := by
  decide

/-- Claim C7, amended. For two timestamps that are valid in the fixed format
after normalization and whose instants are a whole number of seconds apart, at
most 9223372036 (the range of `time.Duration`), a run of `setDurations` that
completes returns the resolved instant minus the created instant in seconds;
the round trip of lines 40-42 gives back exactly that value, and exactly that
value is recorded as one new sample, also when it is negative. -/
theorem setDurations_duration (parse : GoString → Option Int)
    (avgStep : Int → Int → Int → Option Int) (output s' : statistics)
    (createdDate resolvedDate c r : GoString) (createdTime resolvedTime d : Int) (x : F64)
    (hc : normalizeDate createdDate = some c) (hr : normalizeDate resolvedDate = some r)
    (hpc : parse c = some createdTime) (hpr : parse r = some resolvedTime)
    (hwhole : resolvedTime - createdTime = d * Second)
    (hrange : -maxSeconds ≤ d ∧ d ≤ maxSeconds)
    (hrun : setDurations parse avgStep output createdDate resolvedDate = some (s', x)) :
    x = F64.ofInt d
      ∧ durTimeOf64 x = some (d * Second)
      ∧ s'.BugTimes = output.BugTimes ++ [d * Second]
      ∧ s'.BugTimeCount = output.BugTimeCount + 1 := by
  have h53 : d.natAbs < 2 ^ 53 := by
    rw [show (2 : Nat) ^ 53 = 9007199254740992 by norm_num]
    simp only [maxSeconds] at hrange; omega
  have hd : durationOf parse createdDate resolvedDate = some (d * Second) := by
    unfold durationOf
    simp only [hc, hr, hpc, hpr, Sub_whole hwhole hrange]
  rw [setDurations_eq, hd, Option.some_bind] at hrun
  cases hu : updateBugTimes64 avgStep output (d * Second) with
  | none => simp [hu] at hrun
  | some s1 =>
    simp only [hu, Option.map_some', Option.some.injEq, Prod.mk.injEq] at hrun
    obtain ⟨rfl, rfl⟩ := hrun
    obtain ⟨t, ht, hT, hC, -⟩ := updateBugTimes64_some hu
    rw [durTimeOf64_whole hrange] at ht
    cases ht
    exact ⟨by rw [Seconds_whole h53, ofInt_small h53], durTimeOf64_whole hrange, hT, hC⟩

/-- Claim C7, amended, on the timestamps `Mon, 2 Jan 2006 15:04:05 -0700` and
`Mon, 2 Jan 2006 16:04:05 -0700`: the run completes and the result is 3600
seconds, and -3600 seconds with the two timestamps exchanged. -/
theorem setDurations_duration_witness :
    (setDurations parseLayout goAvgStep initial
        "Mon, 2 Jan 2006 15:04:05 -0700".toList "Mon, 2 Jan 2006 16:04:05 -0700".toList
        = some (stateAfterHour, F64.ofInt 3600)
      ∧ (F64.ofInt 3600 = F64.ofInt 3600
        ∧ durTimeOf64 (F64.ofInt 3600) = some (3600 * Second)
        ∧ stateAfterHour.BugTimes = initial.BugTimes ++ [3600 * Second]
        ∧ stateAfterHour.BugTimeCount = initial.BugTimeCount + 1))
      ∧ (setDurations parseLayout goAvgStep initial
        "Mon, 2 Jan 2006 16:04:05 -0700".toList "Mon, 2 Jan 2006 15:04:05 -0700".toList
        = some (stateAfterNegative, F64.ofInt (-3600))
      ∧ (F64.ofInt (-3600) = F64.ofInt (-3600)
        ∧ durTimeOf64 (F64.ofInt (-3600)) = some (-3600 * Second)
        ∧ stateAfterNegative.BugTimes = initial.BugTimes ++ [-3600 * Second]
        ∧ stateAfterNegative.BugTimeCount = initial.BugTimeCount + 1)) :=
  ⟨⟨by decide,
      setDurations_duration parseLayout goAvgStep initial stateAfterHour
        "Mon, 2 Jan 2006 15:04:05 -0700".toList "Mon, 2 Jan 2006 16:04:05 -0700".toList
        "Mon, 02 Jan 2006 15:04:05 -0700".toList "Mon, 02 Jan 2006 16:04:05 -0700".toList
        1136239445000000000 1136243045000000000 3600 (F64.ofInt 3600)
        (by decide) (by decide) (by decide) (by decide) (by decide) (by decide) (by decide)⟩,
    ⟨by decide,
      setDurations_duration parseLayout goAvgStep initial stateAfterNegative
        "Mon, 2 Jan 2006 16:04:05 -0700".toList "Mon, 2 Jan 2006 15:04:05 -0700".toList
        "Mon, 02 Jan 2006 16:04:05 -0700".toList "Mon, 02 Jan 2006 15:04:05 -0700".toList
        1136243045000000000 1136239445000000000 (-3600) (F64.ofInt (-3600))
        (by decide) (by decide) (by decide) (by decide) (by decide) (by decide) (by decide)⟩⟩

/-! ## The running average -/

/-- Claim C2 at the failing input. Four resolved bugs of 1s, 0s, 0s and -1s:
in this order the fourth update of the average computes about -2.5e-10, which
line 50 prints with an exponent, `time.ParseDuration` refuses and `check` turns
into a panic; with the same records in the order 1s, -1s, 0s, 0s every update
succeeds and the run completes. -/
theorem order_changes_outcome :
    [bugOneSecond, bugNoSecond, bugNoSecond, bugMinusOneSecond].Perm
        [bugOneSecond, bugMinusOneSecond, bugNoSecond, bugNoSecond]
      ∧ (∃ r ∈ [bugOneSecond, bugNoSecond, bugNoSecond, bugMinusOneSecond], isTerminalBug r)
      ∧ process parseLayout goAvgStep initial
          [bugOneSecond, bugNoSecond, bugNoSecond, bugMinusOneSecond] = none
      ∧ process parseLayout goAvgStep initial
          [bugOneSecond, bugMinusOneSecond, bugNoSecond, bugNoSecond]
          = some stateAfterCompletedOrder
      ∧ process parseLayout goAvgStep initial [bugOneSecond, bugNoSecond, bugNoSecond]
          = some stateBeforePanic
      ∧ FormatFloat (F64.div
          (F64.add (F64.mul (Seconds stateBeforePanic.BugAverageTime)
            (F64.ofInt stateBeforePanic.BugTimeCount)) (Seconds (-1000000000)))
          (F64.ofInt (stateBeforePanic.BugTimeCount + 1)))
          = "-2.499999929295171e-10".toList
      ∧ ParseDuration "-2.499999929295171e-10s".toList = none
      ∧ task parseLayout goAvgStep stateBeforePanic bugMinusOneSecond = none := by
  refine ⟨?_, ⟨bugOneSecond, by decide, by decide⟩, by decide, by decide, by decide,
    by decide, by decide, by decide⟩
  decide


end BugReport
